import Mathlib

/-! # Console progress bar of libglnx (`glnx-console.c`)

A shallow embedding of `glnx-console.c`: the file-scope statics become one
record that every operation takes and returns, the bytes written to `stdout`
are returned as a list, and a failed `g_return_if_fail` is reported by a flag.
The terminal (the result of `isatty (1)` and of the `TIOCGWINSZ` query) is an
explicit environment argument.
-/

namespace GLnx

/-! ## Machine integers -/

/-- Bytes written to `stdout`, each a value below 256. -/
abbrev Bytes := List Nat

/-- The modulus of `guint` arithmetic. -/
def GUINT_MOD : Nat := 4294967296

/-- Conversion of a C `int` to `guint`. -/
def toGuint (i : Int) : Nat := (i % 4294967296).toNat

/-- Subtraction of two `guint` values, wrapping modulo `2 ^ 32`. -/
def gsub (a b : Nat) : Nat := (a + GUINT_MOD - b % GUINT_MOD) % GUINT_MOD

/-! ## Binary64 arithmetic

The expression `bar_internal_len * (percentage / 100.0)` is evaluated in C
`double`.  Non-negative finite binary64 values are modelled exactly as
`man * 2 ^ exp`; every operation computes the exact rational result and rounds
it to 53 significant bits, ties to even, as a C implementation with
`FLT_EVAL_METHOD` 0 does.  Subnormals and overflow are not modelled: the values
of this program lie between `2 ^ (-7)` and `2 ^ 32`. -/

/-- A non-negative finite binary64 value `man * 2 ^ exp`. -/
structure Double where
  man : Nat
  exp : Int
deriving DecidableEq, Repr

/-- The integer nearest to `a / b`, ties to even. -/
def rneDiv (a b : Nat) : Nat :=
  let q := a / b
  let r := a % b
  if 2 * r < b then q
  else if b < 2 * r then q + 1
  else if q % 2 = 0 then q
  else q + 1

/-- Binary logarithm by repeated halving, at most `fuel` times. -/
def log2Fuel : Nat → Nat → Nat
  | 0, _ => 0
  | fuel + 1, n => if n < 2 then 0 else log2Fuel fuel (n / 2) + 1

/-- The integer `floor (log2 n)` for positive `n`: the index of its top bit. -/
def ilog2 (n : Nat) : Nat := log2Fuel n n

/-- The integer `floor (log2 (a / b))` for positive `a` and `b`. -/
def floorLog2 (a b : Nat) : Int :=
  let d : Int := (ilog2 a : Int) - (ilog2 b : Int)
  if b * 2 ^ d.toNat ≤ a * 2 ^ (-d).toNat then d else d - 1

/-- The binary64 value nearest to the rational `a / b` (`b` positive). -/
def Double.ofQuot (a b : Nat) : Double :=
  if a = 0 then ⟨0, 0⟩
  else
    let e := floorLog2 a b - 52
    ⟨rneDiv (a * 2 ^ (-e).toNat) (b * 2 ^ e.toNat), e⟩

/-- Conversion of a `guint` to `double`, exact since the value is below `2 ^ 53`. -/
def Double.ofGuint (n : Nat) : Double := ⟨n, 0⟩

/-- Binary64 division `x / y`. -/
def Double.div (x y : Double) : Double :=
  let e := x.exp - y.exp
  Double.ofQuot (x.man * 2 ^ e.toNat) (y.man * 2 ^ (-e).toNat)

/-- Binary64 multiplication `x * y`. -/
def Double.mul (x y : Double) : Double :=
  let e := x.exp + y.exp
  Double.ofQuot (x.man * y.man * 2 ^ e.toNat) (2 ^ (-e).toNat)

/-- Conversion of a `double` to `guint`: truncation toward zero. -/
def Double.toGuint (x : Double) : Nat :=
  x.man * 2 ^ x.exp.toNat / 2 ^ (-x.exp).toNat

/-! ## State and environment -/

/-- The caller-owned handle `GLnxConsoleRef`. -/
structure GLnxConsoleRef where
  locked : Bool
deriving DecidableEq, Repr

/-- The file-scope statics of `glnx-console.c`. -/
structure Globals where
  /-- The static `current_text`; `none` is `NULL`. -/
  current_text : Option Bytes
  /-- The static `current_percent`, a `gint`. -/
  current_percent : Int
  /-- The static `locked`. -/
  locked : Bool
  /-- The static `stdout_is_tty_v`; `none` while its `g_once` guard is 0. -/
  stdout_is_tty_v : Option Bool
  /-- The static `cached_columns`. -/
  cached_columns : Nat
  /-- The static `cached_lines`. -/
  cached_lines : Nat
  /-- The `g_once` guard `sigwinch_initialized` of `glnx_console_lock`. -/
  sigwinch_initialized : Bool
deriving DecidableEq, Repr

/-- The statics as the C initialisers leave them at program start. -/
def Globals.initial : Globals :=
  { current_text := none, current_percent := -1, locked := false,
    stdout_is_tty_v := none, cached_columns := 0, cached_lines := 0,
    sigwinch_initialized := false }

/-- The result of `ioctl (fd, TIOCGWINSZ, &ws)`. -/
inductive Winsize where
  /-- The call returned a negative value and set `errno`. -/
  | fail (errno : Nat)
  /-- The call succeeded and reported `ws_col`, an `unsigned short`. -/
  | ok (ws_col : Nat)
deriving DecidableEq, Repr

/-- The terminal as the library sees it during one call. -/
structure Env where
  /-- The value of `isatty (1)`. -/
  isatty : Bool
  /-- The answer to the window-size query on `STDOUT_FILENO`. -/
  winsize : Winsize
deriving DecidableEq, Repr

/-- What one call of a library function did. -/
structure Outcome (σ : Type) where
  /-- The state after the call. -/
  state : σ
  /-- The bytes written to `stdout`, in order. -/
  out : Bytes
  /-- Whether a `g_return_if_fail` check failed. -/
  critical : Bool

/-! ## Terminal capability and geometry cache -/

/-- The function `stdout_is_tty`: `isatty (1)` computed once and cached. -/
def stdout_is_tty (isatty : Bool) (g : Globals) : Bool × Globals :=
  match g.stdout_is_tty_v with
  | some v => (v, g)
  | none => (isatty, { g with stdout_is_tty_v := some isatty })

/-- The errno value `EIO`. -/
def EIO : Int := 5

/-- The function `fd_columns`. -/
def fd_columns (w : Winsize) : Int :=
  match w with
  | .fail errno => - (errno : Int)
  | .ok ws_col => if ws_col ≤ 0 then - EIO else (ws_col : Int)

/-- The function `columns`. -/
def columns (w : Winsize) (g : Globals) : Nat × Globals :=
  if g.cached_columns = 0 then
    let c := fd_columns w
    let c := if c ≤ 0 then 80 else c
    let c := if c > 256 then 256 else c
    (toGuint c, { g with cached_columns := toGuint c })
  else
    (g.cached_columns, g)

/-- The signal handler `on_sigwinch`. -/
def on_sigwinch (g : Globals) : Globals :=
  { g with cached_columns := 0, cached_lines := 0 }

/-! ## Session lock and renderer -/

/-- The function `glnx_console_lock`. -/
def glnx_console_lock (env : Env) (g : Globals) (console : GLnxConsoleRef) :
    Outcome (Globals × GLnxConsoleRef) :=
  let (tty, g) := stdout_is_tty env.isatty g
  if !tty then ⟨(g, console), [], false⟩
  else if g.locked then ⟨(g, console), [], true⟩
  else if console.locked then ⟨(g, console), [], true⟩
  else
    ⟨({ g with locked := true, current_percent := 0, sigwinch_initialized := true },
      { console with locked := true }),
     [0x0A, 0x1B, 0x37], false⟩

/-- The function `printpad`: `n` bytes made of repetitions of `padbuf`. -/
def printpad (padbuf : Bytes) (padbuf_len n : Nat) : Bytes :=
  let d := n / padbuf_len
  let r := n % padbuf_len
  (List.replicate d (padbuf.take padbuf_len)).flatten ++ padbuf.take r

/-- The array `equals`: twenty `=` characters. -/
def equals : Bytes := List.replicate 20 61

/-- The array `spaces`: twenty blanks. -/
def spaces : Bytes := List.replicate 20 32

/-- The output of `fprintf (stdout, " %3d%%", percentage)` for a percentage
below `2 ^ 31`: a blank, the decimal digits right-justified in a field of at
least three columns, and a percent sign. -/
def fprintf_percent (percentage : Nat) : Bytes :=
  let digits := (Nat.toDigits 10 percentage).map Char.toNat
  [32] ++ List.replicate (3 - digits.length) 32 ++ digits ++ [37]

/-- The value `eqlen`: `bar_internal_len * (percentage / 100.0)` computed in
`double` and converted to `guint`. -/
def eqlen (bar_internal_len percentage : Nat) : Nat :=
  Double.toGuint
    (Double.mul (Double.ofGuint bar_internal_len)
      (Double.div (Double.ofGuint percentage) (Double.ofGuint 100)))

/-- The initialiser of `input_textlen`: `text ? strlen (text) : 0`, stored in
a `guint`. -/
def input_textlen (text : Option Bytes) : Nat :=
  match text with
  | some t => t.length % GUINT_MOD
  | none => 0

/-- The block of `glnx_console_progress_text_percent` that writes the label:
`textlen - 1` bytes of `text`, then a blank. -/
def write_label (text : Option Bytes) (textlen : Nat) : Bytes :=
  if textlen > 0 then (text.getD []).take (textlen - 1) ++ [32] else []

/-- The block of `glnx_console_progress_text_percent` that writes the bar: the
brackets, the fill and the percentage. -/
def write_bar (barlen percentage : Nat) : Bytes :=
  let n_equals := 20
  let n_spaces := 20
  let nbraces := 2
  let textpercent_len := 5
  let bar_internal_len := gsub (gsub barlen nbraces) textpercent_len
  let eqlen := eqlen bar_internal_len percentage
  let spacelen := gsub bar_internal_len eqlen
  [91] ++ printpad equals n_equals eqlen ++ printpad spaces n_spaces spacelen ++ [93]
    ++ fprintf_percent percentage

/-- The function `glnx_console_progress_text_percent`. -/
def glnx_console_progress_text_percent (env : Env) (text : Option Bytes)
    (percentage : Nat) (g : Globals) : Outcome Globals :=
  let n_spaces := 20
  let (ncolumns, g) := columns env.winsize g
  let bar_min := 10
  let input_textlen := input_textlen text
  let (tty, g) := stdout_is_tty env.isatty g
  if !tty then ⟨g, [], false⟩
  else if ¬ percentage ≤ 100 then ⟨g, [], true⟩
  else
    let text := if text = some [] then none else text
    if percentage = toGuint g.current_percent ∧ text = g.current_text then ⟨g, [], false⟩
    else if ncolumns < bar_min then ⟨g, [], false⟩
    else
      let beginbuf : Bytes := [0x1B, 0x38]
      let textlen := min input_textlen (gsub ncolumns bar_min)
      let barlen := gsub ncolumns textlen
      let spacelen := gsub (gsub ncolumns textlen) barlen
      ⟨g, beginbuf ++ write_label text textlen ++ write_bar barlen percentage
            ++ printpad spaces n_spaces spacelen, false⟩

/-- The function `glnx_console_unlock`. -/
def glnx_console_unlock (env : Env) (g : Globals) (console : GLnxConsoleRef) :
    Outcome (Globals × GLnxConsoleRef) :=
  let (tty, g) := stdout_is_tty env.isatty g
  if !tty then ⟨(g, console), [], false⟩
  else if !g.locked then ⟨(g, console), [], true⟩
  else if !console.locked then ⟨(g, console), [], true⟩
  else
    ⟨({ g with current_percent := -1, current_text := none, locked := false }, console),
     [0x0A], false⟩

/-! ## Several handles

The process-wide statics together with the caller-owned handles, indexed by
natural numbers, and the entry points applied to them. -/

/-- The statics and every `GLnxConsoleRef` of the process. -/
structure System where
  globals : Globals
  handles : Nat → GLnxConsoleRef

/-- A call of one of the three entry points, or the delivery of `SIGWINCH`. -/
inductive Call where
  | lock (h : Nat)
  | progress (text : Option Bytes) (percentage : Nat)
  | unlock (h : Nat)
  | sigwinch

/-- The program start: initial statics, every handle zero-initialised. -/
def System.initial : System :=
  { globals := Globals.initial, handles := fun _ => { locked := false } }

/-- The effect of one call, made while the terminal is `ec.1`.  A `SIGWINCH`
reaches `on_sigwinch` only once `glnx_console_lock` has installed it; before
that the default disposition ignores the signal. -/
def System.call (s : System) (ec : Env × Call) : System :=
  match ec.2 with
  | .lock h =>
    let r := glnx_console_lock ec.1 s.globals (s.handles h)
    { globals := r.state.1, handles := Function.update s.handles h r.state.2 }
  | .progress text percentage =>
    { s with globals := (glnx_console_progress_text_percent ec.1 text percentage s.globals).state }
  | .unlock h =>
    let r := glnx_console_unlock ec.1 s.globals (s.handles h)
    { globals := r.state.1, handles := Function.update s.handles h r.state.2 }
  | .sigwinch =>
    if s.globals.sigwinch_initialized then { s with globals := on_sigwinch s.globals } else s

/-- The effect of a sequence of calls. -/
def System.run (s : System) (cs : List (Env × Call)) : System :=
  cs.foldl System.call s

/-! ## Concrete inputs used by the closed theorems -/

/-- An interactive terminal that reports 40 columns. -/
def tty40 : Env := { isatty := true, winsize := .ok 40 }

/-- An interactive terminal that reports 57 columns. -/
def tty57 : Env := { isatty := true, winsize := .ok 57 }

/-- The bytes of the label `Building`. -/
def building : Bytes := [66, 117, 105, 108, 100, 105, 110, 103]

/-- The statics right after a successful first `glnx_console_lock` on `tty40`. -/
def locked40 : Globals := (glnx_console_lock tty40 Globals.initial { locked := false }).state.1

/-- The statics right after a successful first `glnx_console_lock` on `tty57`. -/
def locked57 : Globals := (glnx_console_lock tty57 Globals.initial { locked := false }).state.1

/-- An interactive terminal that reports 10 columns. -/
def tty10 : Env := { isatty := true, winsize := .ok 10 }

/-- An interactive terminal that reports 5 columns. -/
def tty5 : Env := { isatty := true, winsize := .ok 5 }

/-- A standard output that is not a terminal: the window-size query fails with
`ENOTTY` (25). -/
def notty : Env := { isatty := false, winsize := .fail 25 }

/-- The statics right after a successful first `glnx_console_lock` on `tty10`. -/
def locked10 : Globals := (glnx_console_lock tty10 Globals.initial { locked := false }).state.1

/-- The statics right after a successful first `glnx_console_lock` on `tty5`. -/
def locked5 : Globals := (glnx_console_lock tty5 Globals.initial { locked := false }).state.1

/-! ## Lemmas on machine integers and padding -/

theorem gsub_of_le {a b : Nat} (hb : b ≤ a) (ha : a < GUINT_MOD) : gsub a b = a - b := by
  simp only [gsub, GUINT_MOD] at *
  omega

theorem gsub_lt (a b : Nat) : gsub a b < GUINT_MOD := by
  simp only [gsub, GUINT_MOD]
  omega

theorem printpad_equals (n : Nat) : printpad equals 20 n = List.replicate n 61 := by
  simp only [printpad, equals, List.take_replicate, Nat.min_self,
    List.flatten_replicate_replicate, List.append_replicate_replicate]
  congr 1
  omega

theorem printpad_spaces (n : Nat) : printpad spaces 20 n = List.replicate n 32 := by
  simp only [printpad, spaces, List.take_replicate, Nat.min_self,
    List.flatten_replicate_replicate, List.append_replicate_replicate]
  congr 1
  omega

theorem fprintf_percent_length {p : Nat} (hp : p ≤ 100) : (fprintf_percent p).length = 5 := by
  interval_cases p <;> rfl

/-! ## Lemmas on the binary64 model -/

theorem rneDiv_le {a b c : Nat} (hb : 0 < b) (h : a ≤ c * b) : rneDiv a b ≤ c := by
  have hq : a / b ≤ c := Nat.div_le_of_le_mul (by rw [Nat.mul_comm]; exact h)
  rcases Nat.lt_or_ge (a / b) c with hlt | hge
  · unfold rneDiv
    simp only
    split_ifs <;> omega
  · have hqc : a / b = c := Nat.le_antisymm hq hge
    have hmod : a % b = 0 := by
      have h1 := Nat.div_add_mod a b
      rw [hqc] at h1
      have h2 : b * c = c * b := Nat.mul_comm b c
      omega
    unfold rneDiv
    simp only [hmod, hqc]
    split_ifs <;> omega

theorem le_rneDiv {a b c : Nat} (hb : 0 < b) (h : c * b ≤ a) : c ≤ rneDiv a b := by
  have hq : c ≤ a / b := (Nat.le_div_iff_mul_le hb).2 h
  unfold rneDiv
  simp only
  split_ifs <;> omega

theorem rneDiv_near (a b : Nat) (hb : 0 < b) :
    2 * (b * rneDiv a b) ≤ 2 * a + b ∧ 2 * a ≤ 2 * (b * rneDiv a b) + b := by
  have h1 := Nat.div_add_mod a b
  have h2 := Nat.mod_lt a hb
  unfold rneDiv
  simp only
  split_ifs <;> (try simp only [Nat.mul_add, Nat.mul_one]) <;> omega

theorem log2Fuel_spec (fuel : Nat) : ∀ n : Nat, 0 < n → n ≤ fuel →
    2 ^ log2Fuel fuel n ≤ n ∧ n < 2 ^ (log2Fuel fuel n + 1) := by
  induction fuel with
  | zero => intro n h0 h1; omega
  | succ fuel ih =>
    intro n h0 h1
    unfold log2Fuel
    split_ifs with h2
    · simp only [pow_zero, zero_add, pow_one]; omega
    · have ih1 := ih (n / 2) (by omega) (by omega)
      simp only [pow_succ] at ih1 ⊢
      omega

theorem ilog2_spec {n : Nat} (h : 0 < n) : 2 ^ ilog2 n ≤ n ∧ n < 2 ^ (ilog2 n + 1) :=
  log2Fuel_spec n n h (Nat.le_refl n)


theorem floorLog2_le {a b : Nat} (ha : 0 < a) (hb : 0 < b) :
    b * 2 ^ (floorLog2 a b).toNat ≤ a * 2 ^ (-(floorLog2 a b)).toNat := by
  unfold floorLog2
  simp only
  split_ifs with h
  · exact h
  · obtain ⟨ha1, -⟩ := ilog2_spec ha
    obtain ⟨-, hb2⟩ := ilog2_spec hb
    generalize ilog2 a = la at *
    generalize ilog2 b = lb at *
    rcases Nat.lt_or_ge lb la with hlt | hge
    · have e1 : ((la : Int) - (lb : Int) - 1).toNat = la - lb - 1 := by omega
      have e2 : (-((la : Int) - (lb : Int) - 1)).toNat = 0 := by omega
      rw [e1, e2, pow_zero, Nat.mul_one]
      have e3 : 2 ^ la = 2 ^ (lb + 1) * 2 ^ (la - lb - 1) := by
        rw [← pow_add]; congr 1; omega
      calc b * 2 ^ (la - lb - 1) ≤ 2 ^ (lb + 1) * 2 ^ (la - lb - 1) :=
            Nat.mul_le_mul_right _ (Nat.le_of_lt hb2)
        _ = 2 ^ la := e3.symm
        _ ≤ a := ha1
    · have e1 : ((la : Int) - (lb : Int) - 1).toNat = 0 := by omega
      have e2 : (-((la : Int) - (lb : Int) - 1)).toNat = lb - la + 1 := by omega
      rw [e1, e2, pow_zero, Nat.mul_one]
      have e3 : 2 ^ (lb + 1) = 2 ^ la * 2 ^ (lb - la + 1) := by
        rw [← pow_add]; congr 1; omega
      calc b ≤ 2 ^ (lb + 1) := Nat.le_of_lt hb2
        _ = 2 ^ la * 2 ^ (lb - la + 1) := e3
        _ ≤ a * 2 ^ (lb - la + 1) := Nat.mul_le_mul_right _ ha1

theorem ofQuot_spec {a b j : Nat} (ha : 0 < a) (hb : 0 < b) (hj : j ≤ 52)
    (h : a ≤ b * 2 ^ j) :
    ∃ k : Nat, 52 ≤ k + j ∧ 2 ^ 52 * b ≤ a * 2 ^ k ∧
      Double.ofQuot a b = ⟨rneDiv (a * 2 ^ k) b, -(k : Int)⟩ := by
  have hf := floorLog2_le ha hb
  have hne : a ≠ 0 := Nat.pos_iff_ne_zero.mp ha
  unfold Double.ofQuot
  simp only [hne, if_false]
  generalize floorLog2 a b = f at *
  obtain ⟨F, rfl | rfl⟩ := Int.eq_nat_or_neg f
  · have e1 : ((F : Int)).toNat = F := by omega
    have e2 : (-(F : Int)).toNat = 0 := by omega
    rw [e1, e2, pow_zero, Nat.mul_one] at hf
    have hFj : F ≤ j := by
      by_contra hcon
      have h1 : 2 ^ (j + 1) ≤ 2 ^ F := Nat.pow_le_pow_right (by norm_num) (by omega)
      have h2 : b * 2 ^ (j + 1) ≤ b * 2 ^ F := Nat.mul_le_mul_left _ h1
      have h3 : b * 2 ^ j < b * 2 ^ (j + 1) := by
        rw [pow_succ, ← Nat.mul_assoc]
        have := Nat.pos_of_ne_zero (pow_ne_zero j (two_ne_zero (α := Nat)))
        have := Nat.mul_pos hb this
        omega
      omega
    refine ⟨52 - F, by omega, ?_, ?_⟩
    · have e3 : 2 ^ 52 = 2 ^ (52 - F) * 2 ^ F := by
        rw [← pow_add]; congr 1; omega
      calc 2 ^ 52 * b = 2 ^ (52 - F) * (b * 2 ^ F) := by rw [e3]; ring
        _ ≤ 2 ^ (52 - F) * a := Nat.mul_le_mul_left _ hf
        _ = a * 2 ^ (52 - F) := Nat.mul_comm _ _
    · have e4 : ((F : Int) - 52).toNat = 0 := by omega
      have e5 : (-((F : Int) - 52)).toNat = 52 - F := by omega
      have e6 : (F : Int) - 52 = -((52 - F : Nat) : Int) := by omega
      rw [e4, e5, pow_zero, Nat.mul_one, e6]
  · have e1 : (-(F : Int)).toNat = 0 := by omega
    have e2 : (-(-(F : Int))).toNat = F := by omega
    rw [e1, e2, pow_zero, Nat.mul_one] at hf
    refine ⟨52 + F, by omega, ?_, ?_⟩
    · calc 2 ^ 52 * b ≤ 2 ^ 52 * (a * 2 ^ F) := Nat.mul_le_mul_left _ hf
        _ = a * 2 ^ (52 + F) := by rw [pow_add]; ring
    · have e4 : (-(F : Int) - 52).toNat = 0 := by omega
      have e5 : (-(-(F : Int) - 52)).toNat = 52 + F := by omega
      have e6 : -(F : Int) - 52 = -((52 + F : Nat) : Int) := by omega
      rw [e4, e5, pow_zero, Nat.mul_one, e6]


theorem eqlen_percent_zero (n : Nat) : eqlen n 0 = 0 := by
  simp [eqlen, Double.div, Double.mul, Double.ofGuint, Double.ofQuot, Double.toGuint]

theorem eqlen_len_zero (p : Nat) : eqlen 0 p = 0 := by
  simp [eqlen, Double.mul, Double.ofGuint, Double.ofQuot, Double.toGuint]

/-- The shape of `eqlen` on the inputs the renderer passes: both roundings
happen at negative exponents `-k1` and `-k2`. -/
theorem eqlen_spec {n p : Nat} (hn0 : 0 < n) (hn : n < 2 ^ 32) (hp0 : 0 < p) (hp : p ≤ 100) :
    ∃ k1 k2 : Nat, 52 ≤ k1 ∧ 20 ≤ k2 ∧
      eqlen n p = rneDiv (n * rneDiv (p * 2 ^ k1) 100 * 2 ^ k2) (2 ^ k1) / 2 ^ k2 := by
  obtain ⟨k1, hk1, hlow1, hq⟩ :=
    ofQuot_spec (a := p) (b := 100) (j := 0) hp0 (by norm_num) (by norm_num) (by simpa using hp)
  have hm_lo : 2 ^ 52 ≤ rneDiv (p * 2 ^ k1) 100 := le_rneDiv (by norm_num) hlow1
  have hm_hi : rneDiv (p * 2 ^ k1) 100 ≤ 2 ^ k1 :=
    rneDiv_le (by norm_num) (by
      rw [Nat.mul_comm p]; exact Nat.mul_le_mul_left _ hp)
  generalize hmdef : rneDiv (p * 2 ^ k1) 100 = m at *
  have hm0 : 0 < m := Nat.lt_of_lt_of_le (by norm_num) hm_lo
  have hK1 : 0 < 2 ^ k1 := Nat.pos_of_ne_zero (pow_ne_zero k1 (two_ne_zero (α := Nat)))
  have hprod : n * m ≤ 2 ^ k1 * 2 ^ 32 := by
    rw [Nat.mul_comm (2 ^ k1)]
    exact Nat.mul_le_mul (Nat.le_of_lt hn) hm_hi
  obtain ⟨k2, hk2, -, hr⟩ :=
    ofQuot_spec (a := n * m) (b := 2 ^ k1) (j := 32) (Nat.mul_pos hn0 hm0) hK1
      (by norm_num) hprod
  refine ⟨k1, k2, by omega, by omega, ?_⟩
  rw [hmdef]
  have e1 : (-(-(k1 : Int))).toNat = k1 := by omega
  have e2 : (-(k1 : Int)).toNat = 0 := by omega
  have e3 : (-(-(k2 : Int))).toNat = k2 := by omega
  have e4 : (-(k2 : Int)).toNat = 0 := by omega
  simp only [eqlen, Double.div, Double.mul, Double.ofGuint, Double.toGuint, sub_self,
    Int.toNat_zero, neg_zero, pow_zero, Nat.mul_one, hq, zero_add, e1, e2, hr, e3, e4]


theorem eqlen_le {n p : Nat} (hn : n < 2 ^ 32) (hp : p ≤ 100) : eqlen n p ≤ n := by
  rcases Nat.eq_zero_or_pos n with rfl | hn0
  · rw [eqlen_len_zero]
  rcases Nat.eq_zero_or_pos p with rfl | hp0
  · rw [eqlen_percent_zero]; exact Nat.zero_le _
  obtain ⟨k1, k2, -, -, he⟩ := eqlen_spec hn0 hn hp0 hp
  rw [he]
  have hK1 : 0 < 2 ^ k1 := Nat.pos_of_ne_zero (pow_ne_zero k1 (two_ne_zero (α := Nat)))
  have hm_hi : rneDiv (p * 2 ^ k1) 100 ≤ 2 ^ k1 :=
    rneDiv_le (by norm_num) (by
      rw [Nat.mul_comm p]; exact Nat.mul_le_mul_left _ hp)
  apply Nat.div_le_of_le_mul
  apply rneDiv_le hK1
  calc n * rneDiv (p * 2 ^ k1) 100 * 2 ^ k2
      ≤ n * 2 ^ k1 * 2 ^ k2 := Nat.mul_le_mul_right _ (Nat.mul_le_mul_left _ hm_hi)
    _ = 2 ^ k2 * n * 2 ^ k1 := by ring

theorem eqlen_hundred {n : Nat} (hn : n < 2 ^ 32) : eqlen n 100 = n := by
  rcases Nat.eq_zero_or_pos n with rfl | hn0
  · rw [eqlen_len_zero]
  obtain ⟨k1, k2, -, -, he⟩ := eqlen_spec hn0 hn (by norm_num : 0 < 100) (Nat.le_refl 100)
  rw [he]
  have hK1 : 0 < 2 ^ k1 := Nat.pos_of_ne_zero (pow_ne_zero k1 (two_ne_zero (α := Nat)))
  have hK2 : 0 < 2 ^ k2 := Nat.pos_of_ne_zero (pow_ne_zero k2 (two_ne_zero (α := Nat)))
  have hm : rneDiv (100 * 2 ^ k1) 100 = 2 ^ k1 :=
    Nat.le_antisymm (rneDiv_le (by norm_num) (by rw [Nat.mul_comm]))
      (le_rneDiv (by norm_num) (by rw [Nat.mul_comm]))
  have hm2 : rneDiv (n * 2 ^ k1 * 2 ^ k2) (2 ^ k1) = n * 2 ^ k2 :=
    Nat.le_antisymm (rneDiv_le hK1 (by rw [Nat.mul_right_comm]))
      (le_rneDiv hK1 (by rw [Nat.mul_right_comm]))
  rw [hm, hm2, Nat.mul_div_cancel _ hK2]

theorem near_core {n p m m2 K1 K2 E X r : Nat}
    (h1a : 2 * (100 * m) ≤ 2 * (p * K1) + 100) (h1b : 2 * (p * K1) ≤ 2 * (100 * m) + 100)
    (h2a : 2 * (K1 * m2) ≤ 2 * (n * m * K2) + K1)
    (h2b : 2 * (n * m * K2) ≤ 2 * (K1 * m2) + K1)
    (hE1 : E * K2 ≤ m2) (hE2 : m2 < (E + 1) * K2)
    (hX : n * p = 100 * X + r) (hr : r < 100)
    (hK1 : 2 ^ 52 ≤ K1) (hK2 : 2 ^ 20 ≤ K2) (hn : n < 2 ^ 32) :
    E ≤ X ∧ X ≤ E + 1 ∧ (r ≠ 0 → X ≤ E) := by
  have hXX : n * p * (K1 * K2) = (100 * X + r) * (K1 * K2) := by rw [hX]
  have t1 : n * K2 * (2 * (100 * m)) ≤ n * K2 * (2 * (p * K1) + 100) :=
    Nat.mul_le_mul_left _ h1a
  have t2 : n * K2 * (2 * (p * K1)) ≤ n * K2 * (2 * (100 * m) + 100) :=
    Nat.mul_le_mul_left _ h1b
  have t3 : r * (K1 * K2) ≤ 99 * (K1 * K2) := Nat.mul_le_mul_right _ (by omega)
  have t4 : n * K2 ≤ 2 ^ 32 * K2 := Nat.mul_le_mul_right _ (Nat.le_of_lt hn)
  have t5 : 2 ^ 52 * K2 ≤ K1 * K2 := Nat.mul_le_mul_right _ hK1
  have t6 : K1 * 2 ^ 20 ≤ K1 * K2 := Nat.mul_le_mul_left _ hK2
  have hK2pos : 0 < K2 := Nat.lt_of_lt_of_le (by norm_num) hK2
  have hK1pos : 0 < K1 := Nat.lt_of_lt_of_le (by norm_num) hK1
  have hP : 0 < K1 * K2 := Nat.mul_pos hK1pos hK2pos
  norm_num at t4 t5 t6
  clear hK1 hK2 hn
  refine ⟨?_, ?_, ?_⟩
  · by_contra hcon
    have s1 : (X + 1) * K2 ≤ E * K2 := Nat.mul_le_mul_right _ (by omega)
    have s2 : K1 * ((X + 1) * K2) ≤ K1 * m2 := Nat.mul_le_mul_left _ (Nat.le_trans s1 hE1)
    linarith
  · by_contra hcon
    have s1 : (E + 2) * K2 ≤ X * K2 := Nat.mul_le_mul_right _ (by omega)
    have s2 : K1 * (m2 + 1) ≤ K1 * ((E + 1) * K2) := Nat.mul_le_mul_left _ hE2
    have s3 : K1 * ((E + 2) * K2) ≤ K1 * (X * K2) := Nat.mul_le_mul_left _ s1
    have s4 : 0 ≤ r * (K1 * K2) := Nat.zero_le _
    linarith
  · intro hr0
    by_contra hcon
    have s1 : (E + 1) * K2 ≤ X * K2 := Nat.mul_le_mul_right _ (by omega)
    have s2 : K1 * (m2 + 1) ≤ K1 * ((E + 1) * K2) := Nat.mul_le_mul_left _ hE2
    have s3 : K1 * ((E + 1) * K2) ≤ K1 * (X * K2) := Nat.mul_le_mul_left _ s1
    have s4 : 1 * (K1 * K2) ≤ r * (K1 * K2) := Nat.mul_le_mul_right _ (by omega)
    linarith


theorem eqlen_near {n p : Nat} (hn : n < 2 ^ 32) (hp : p ≤ 100) :
    eqlen n p ≤ n * p / 100 ∧ n * p / 100 ≤ eqlen n p + 1 ∧
      (n * p % 100 ≠ 0 → eqlen n p = n * p / 100) := by
  rcases Nat.eq_zero_or_pos n with rfl | hn0
  · simp [eqlen_len_zero]
  rcases Nat.eq_zero_or_pos p with rfl | hp0
  · simp [eqlen_percent_zero]
  obtain ⟨k1, k2, hk1, hk2, he⟩ := eqlen_spec hn0 hn hp0 hp
  have hK1 : 2 ^ 52 ≤ 2 ^ k1 := Nat.pow_le_pow_right (by norm_num) hk1
  have hK2 : 2 ^ 20 ≤ 2 ^ k2 := Nat.pow_le_pow_right (by norm_num) hk2
  have hK1pos : 0 < 2 ^ k1 := Nat.lt_of_lt_of_le (by norm_num) hK1
  have hK2pos : 0 < 2 ^ k2 := Nat.lt_of_lt_of_le (by norm_num) hK2
  obtain ⟨h1a, h1b⟩ := rneDiv_near (p * 2 ^ k1) 100 (by norm_num)
  obtain ⟨h2a, h2b⟩ := rneDiv_near (n * rneDiv (p * 2 ^ k1) 100 * 2 ^ k2) (2 ^ k1) hK1pos
  have hE1 := Nat.div_mul_le_self (rneDiv (n * rneDiv (p * 2 ^ k1) 100 * 2 ^ k2) (2 ^ k1))
    (2 ^ k2)
  have hE2 : ∀ M : Nat, M < (M / 2 ^ k2 + 1) * 2 ^ k2 := fun M => by
    have := Nat.lt_mul_div_succ M hK2pos
    rwa [Nat.mul_comm (2 ^ k2)] at this
  have hX : n * p = 100 * (n * p / 100) + n * p % 100 := (Nat.div_add_mod _ _).symm
  have hr : n * p % 100 < 100 := Nat.mod_lt _ (by norm_num)
  obtain ⟨c1, c2, c3⟩ := near_core h1a h1b h2a h2b hE1 (hE2 _) hX hr hK1 hK2 hn
  rw [he]
  exact ⟨c1, c2, fun h => Nat.le_antisymm c1 (c3 h)⟩


/-! ## Frame lemmas for the cached queries -/

theorem stdout_is_tty_fst (i : Bool) (g : Globals) :
    (stdout_is_tty i g).1 = g.stdout_is_tty_v.getD i := by
  unfold stdout_is_tty
  cases g.stdout_is_tty_v <;> rfl

theorem stdout_is_tty_snd (i : Bool) (g : Globals) :
    (stdout_is_tty i g).2 = { g with stdout_is_tty_v := some (g.stdout_is_tty_v.getD i) } := by
  unfold stdout_is_tty
  cases h : g.stdout_is_tty_v
  · rfl
  · cases g
    simp only [Option.getD_some] at h ⊢
    rw [h]

theorem columns_snd (w : Winsize) (g : Globals) :
    (columns w g).2 = { g with cached_columns := (columns w g).1 } := by
  unfold columns
  split_ifs <;> rfl

/-- The state `glnx_console_progress_text_percent` returns on every path: the
statics with the two caches filled, and nothing else changed. -/
theorem progress_state (env : Env) (text : Option Bytes) (p : Nat) (g : Globals) :
    (glnx_console_progress_text_percent env text p g).state =
      { g with cached_columns := (columns env.winsize g).1,
               stdout_is_tty_v := some (g.stdout_is_tty_v.getD env.isatty) } := by
  unfold glnx_console_progress_text_percent
  simp only [stdout_is_tty_snd, columns_snd env.winsize g]
  split_ifs <;> rfl

/-- The bytes `glnx_console_progress_text_percent` writes once every check has
passed, before any simplification of the unsigned arithmetic. -/
theorem progress_out {env : Env} {text : Option Bytes} {p : Nat} {g : Globals}
    (htty : (stdout_is_tty env.isatty g).1 = true) (hp : p ≤ 100)
    (hmemo : ¬ (p = toGuint g.current_percent ∧
      (if text = some [] then none else text) = g.current_text))
    (hW : 10 ≤ (columns env.winsize g).1) :
    (glnx_console_progress_text_percent env text p g).out =
      [0x1B, 0x38]
        ++ write_label (if text = some [] then none else text)
            (min (input_textlen text) (gsub (columns env.winsize g).1 10))
        ++ write_bar (gsub (columns env.winsize g).1
            (min (input_textlen text) (gsub (columns env.winsize g).1 10))) p
        ++ printpad spaces 20
            (gsub (gsub (columns env.winsize g).1
              (min (input_textlen text) (gsub (columns env.winsize g).1 10)))
              (gsub (columns env.winsize g).1
                (min (input_textlen text) (gsub (columns env.winsize g).1 10)))) := by
  rw [stdout_is_tty_fst] at htty
  unfold glnx_console_progress_text_percent
  simp only [stdout_is_tty_fst, stdout_is_tty_snd, columns_snd env.winsize g, htty]
  simp only [Bool.not_true, Bool.false_eq_true, if_false, hp, not_true_eq_false, hmemo,
    Nat.not_lt.mpr hW]


/-! ## Layout of the drawn line -/

theorem input_textlen_le (text : Option Bytes) : input_textlen text ≤ (text.getD []).length := by
  cases text with
  | none => simp [input_textlen]
  | some t => simpa [input_textlen] using Nat.mod_le _ _

theorem input_textlen_lt (text : Option Bytes) : input_textlen text < GUINT_MOD := by
  cases text with
  | none => simp [input_textlen, GUINT_MOD]
  | some t => exact Nat.mod_lt _ (by simp [GUINT_MOD])

theorem input_textlen_of_lt {text : Option Bytes} (h : (text.getD []).length < GUINT_MOD) :
    input_textlen text = (text.getD []).length := by
  cases text with
  | none => simp [input_textlen]
  | some t => simpa [input_textlen] using Nat.mod_eq_of_lt h

theorem write_label_norm (text : Option Bytes) (textlen : Nat) :
    write_label (if text = some [] then none else text) textlen = write_label text textlen := by
  split_ifs with h
  · subst h; rfl
  · rfl

theorem write_label_length {text : Option Bytes} {textlen : Nat}
    (h : textlen ≤ input_textlen text) : (write_label text textlen).length = textlen := by
  have h2 := input_textlen_le text
  unfold write_label
  split_ifs with h0
  · simp only [List.length_append, List.length_take, List.length_singleton]
    omega
  · simp only [List.length_nil]
    omega

/-- The bar block once the unsigned subtractions are known not to wrap. -/
theorem write_bar_eq {W tl p : Nat} (h10 : 10 ≤ W) (hW : W < GUINT_MOD) (htl : tl ≤ W - 10)
    (hp : p ≤ 100) :
    write_bar (gsub W tl) p =
      [91] ++ List.replicate (eqlen (W - tl - 7) p) 61
        ++ List.replicate (W - tl - 7 - eqlen (W - tl - 7) p) 32 ++ [93]
        ++ fprintf_percent p := by
  have hlt : W - tl - 7 < 2 ^ 32 := by simp only [GUINT_MOD] at hW; omega
  have he := eqlen_le hlt hp
  have e1 : gsub W tl = W - tl := gsub_of_le (by omega) hW
  have e2 : gsub (W - tl) 2 = W - tl - 2 :=
    gsub_of_le (by omega) (by simp only [GUINT_MOD] at *; omega)
  have e3 : gsub (W - tl - 2) 5 = W - tl - 7 := by
    rw [gsub_of_le (by omega) (by simp only [GUINT_MOD] at *; omega)]
    omega
  have e4 : gsub (W - tl - 7) (eqlen (W - tl - 7) p)
      = W - tl - 7 - eqlen (W - tl - 7) p :=
    gsub_of_le he (by simp only [GUINT_MOD] at *; omega)
  simp only [write_bar, e1, e2, e3, e4, printpad_equals, printpad_spaces]

theorem final_pad_eq {W tl : Nat} (hW : W < GUINT_MOD) (htl : tl ≤ W) :
    printpad spaces 20 (gsub (gsub W tl) (gsub W tl)) = [] := by
  have e1 : gsub W tl = W - tl := gsub_of_le htl hW
  have e2 : gsub (W - tl) (W - tl) = 0 := by
    rw [gsub_of_le (Nat.le_refl _) (by simp only [GUINT_MOD] at *; omega)]
    omega
  rw [e1, e2, printpad_spaces]
  rfl

/-- The line `glnx_console_progress_text_percent` draws on a terminal of `W`
columns once every check has passed. -/
theorem progress_line {env : Env} {text : Option Bytes} {p W : Nat} {g : Globals}
    (htty : (stdout_is_tty env.isatty g).1 = true) (hp : p ≤ 100)
    (hmemo : ¬ (p = toGuint g.current_percent ∧
      (if text = some [] then none else text) = g.current_text))
    (hcol : (columns env.winsize g).1 = W) (h10 : 10 ≤ W) (hW : W < GUINT_MOD) :
    (glnx_console_progress_text_percent env text p g).out =
      [0x1B, 0x38] ++ write_label text (min (input_textlen text) (W - 10))
        ++ ([91] ++ List.replicate (eqlen (W - min (input_textlen text) (W - 10) - 7) p) 61
          ++ List.replicate (W - min (input_textlen text) (W - 10) - 7
              - eqlen (W - min (input_textlen text) (W - 10) - 7) p) 32
          ++ [93] ++ fprintf_percent p) := by
  rw [progress_out htty hp hmemo (by rw [hcol]; exact h10), hcol, write_label_norm]
  have e0 : gsub W 10 = W - 10 := gsub_of_le h10 hW
  rw [e0, write_bar_eq h10 hW (Nat.min_le_right _ _) hp,
    final_pad_eq hW (Nat.le_trans (Nat.min_le_right _ _) (Nat.sub_le _ _)), List.append_nil]


/-! ## The geometry cache stays within bounds -/

theorem columns_fst_bounds (w : Winsize) (g : Globals) (hc : g.cached_columns ≤ 256) :
    1 ≤ (columns w g).1 ∧ (columns w g).1 ≤ 256 := by
  unfold columns
  split_ifs with h0
  · cases w with
    | fail errno =>
      simp only [fd_columns, toGuint]
      split_ifs <;> omega
    | ok ws_col =>
      simp only [fd_columns, toGuint, EIO]
      split_ifs <;> omega
  · simp only
    omega

theorem lock_cached_columns (env : Env) (g : Globals) (console : GLnxConsoleRef) :
    (glnx_console_lock env g console).state.1.cached_columns = g.cached_columns := by
  unfold glnx_console_lock
  simp only [stdout_is_tty_fst, stdout_is_tty_snd]
  split_ifs <;> rfl

theorem unlock_cached_columns (env : Env) (g : Globals) (console : GLnxConsoleRef) :
    (glnx_console_unlock env g console).state.1.cached_columns = g.cached_columns := by
  unfold glnx_console_unlock
  simp only [stdout_is_tty_fst, stdout_is_tty_snd]
  split_ifs <;> rfl

theorem call_cached_columns_le (s : System) (ec : Env × Call)
    (h : s.globals.cached_columns ≤ 256) : (System.call s ec).globals.cached_columns ≤ 256 := by
  obtain ⟨env, c⟩ := ec
  cases c with
  | lock i => simpa only [System.call, lock_cached_columns] using h
  | progress text p =>
    simp only [System.call, progress_state]
    exact (columns_fst_bounds env.winsize s.globals h).2
  | unlock i => simpa only [System.call, unlock_cached_columns] using h
  | sigwinch =>
    simp only [System.call]
    split_ifs
    · exact Nat.zero_le _
    · exact h

/-- Every run from program start leaves a cached width of at most 256. -/
theorem run_cached_columns_le (cs : List (Env × Call)) :
    (System.run System.initial cs).globals.cached_columns ≤ 256 := by
  have key : ∀ (l : List (Env × Call)) (s : System), s.globals.cached_columns ≤ 256 →
      (System.run s l).globals.cached_columns ≤ 256 := by
    intro l
    induction l with
    | nil => intro s hs; exact hs
    | cons ec l ih =>
      intro s hs
      exact ih (System.call s ec) (call_cached_columns_le s ec hs)
  exact key cs System.initial (by decide)


/-! ## Claims about the drawn line -/

/-- C1: on a terminal of `W` columns, `10 ≤ W ≤ 256`, with `p ≤ 100` and
`(L, p)` different from the memoized pair, the output is the two restore-cursor
bytes followed by label region, `[`, fill, `]`, the 5-column percent field and
the trailing pad, and these add up to exactly `W` bytes. -/
theorem progress_line_width (env : Env) (text : Option Bytes) (p W : Nat) (g : Globals)
    (htty : (stdout_is_tty env.isatty g).1 = true)
    (hcol : (columns env.winsize g).1 = W) (h10 : 10 ≤ W) (h256 : W ≤ 256) (hp : p ≤ 100)
    (hmemo : ¬ (p = toGuint g.current_percent ∧
      (if text = some [] then none else text) = g.current_text)) :
    ∃ label fill pad : Bytes,
      (glnx_console_progress_text_percent env text p g).out =
        [0x1B, 0x38] ++ (label ++ [91] ++ fill ++ [93] ++ fprintf_percent p ++ pad) ∧
      (fprintf_percent p).length = 5 ∧
      label.length + 1 + fill.length + 1 + (fprintf_percent p).length + pad.length = W ∧
      ((glnx_console_progress_text_percent env text p g).out.drop 2).length = W := by
  have hW : W < GUINT_MOD := by simp only [GUINT_MOD]; omega
  have hout := progress_line htty hp hmemo hcol h10 hW
  have hlab : (write_label text (min (input_textlen text) (W - 10))).length
      = min (input_textlen text) (W - 10) := write_label_length (Nat.min_le_left _ _)
  have hle : min (input_textlen text) (W - 10) ≤ W - 10 := Nat.min_le_right _ _
  have he : eqlen (W - min (input_textlen text) (W - 10) - 7) p
      ≤ W - min (input_textlen text) (W - 10) - 7 := eqlen_le (by omega) hp
  have h5 := fprintf_percent_length hp
  generalize min (input_textlen text) (W - 10) = tl at *
  refine ⟨write_label text tl,
    List.replicate (eqlen (W - tl - 7) p) 61
      ++ List.replicate (W - tl - 7 - eqlen (W - tl - 7) p) 32, [], ?_, h5, ?_, ?_⟩
  · rw [hout]; simp only [List.append_assoc, List.append_nil]
  · simp only [List.length_append, List.length_replicate, List.length_nil, hlab, h5]
    omega
  · rw [hout]
    simp only [List.append_assoc, List.cons_append, List.nil_append, List.drop_succ_cons,
      List.drop_zero, List.length_append, List.length_cons, List.length_replicate,
      List.length_nil, hlab, h5]
    omega

/-- C1, at a concrete input: the label `Building` at 50 percent on 40 columns. -/
theorem progress_line_width_witness :
    (stdout_is_tty tty40.isatty locked40).1 = true ∧
    (columns tty40.winsize locked40).1 = 40 ∧
    ∃ label fill pad : Bytes,
      (glnx_console_progress_text_percent tty40 (some building) 50 locked40).out =
        [0x1B, 0x38] ++ (label ++ [91] ++ fill ++ [93] ++ fprintf_percent 50 ++ pad) ∧
      (fprintf_percent 50).length = 5 ∧
      label.length + 1 + fill.length + 1 + (fprintf_percent 50).length + pad.length = 40 ∧
      ((glnx_console_progress_text_percent tty40 (some building) 50 locked40).out.drop 2).length
        = 40 :=
  ⟨by decide, by decide,
    progress_line_width tty40 (some building) 50 40 locked40 (by decide) (by decide)
      (by decide) (by decide) (by decide) (by decide)⟩

/-- C2, refuted as stated: on 57 columns with no label the interior is 50
columns wide, and at 58 percent the code writes 28 `=` characters, while
`floor (50 * 58 / 100)` is 29. -/
theorem fill_count_not_floor :
    ¬ ((glnx_console_progress_text_percent tty57 none 58 locked57).out.count 61
        = (57 - min 0 (57 - 10) - 7) * 58 / 100) := by
  decide

/-- C2, amended: the fill is `eqlen n p` characters `=` followed by blanks up to
the interior width `n = W - labelWidth - 7`, where `labelWidth` is
`min (len L mod 2 ^ 32) (W - 10)` (that is `min (len L) (W - 10)` for a label
shorter than `2 ^ 32` bytes); `eqlen n p`, the truncated binary64 product
`n * (p / 100.0)`, is `floor (n * p / 100)` whenever `n * p` is not a multiple of
100, and otherwise is that value or one less. -/
theorem fill_count_near_floor (env : Env) (text : Option Bytes) (p W : Nat) (g : Globals)
    (labelWidth n : Nat)
    (htty : (stdout_is_tty env.isatty g).1 = true)
    (hcol : (columns env.winsize g).1 = W) (h10 : 10 ≤ W) (h256 : W ≤ 256) (hp : p ≤ 100)
    (hmemo : ¬ (p = toGuint g.current_percent ∧
      (if text = some [] then none else text) = g.current_text))
    (hlw : labelWidth = min (input_textlen text) (W - 10))
    (hn : n = W - labelWidth - 7) :
    (glnx_console_progress_text_percent env text p g).out =
      [0x1B, 0x38] ++ write_label text labelWidth
        ++ ([91] ++ List.replicate (eqlen n p) 61 ++ List.replicate (n - eqlen n p) 32
          ++ [93] ++ fprintf_percent p) ∧
    ((text.getD []).length < 2 ^ 32 → labelWidth = min (text.getD []).length (W - 10)) ∧
    eqlen n p ≤ n * p / 100 ∧
    n * p / 100 ≤ eqlen n p + 1 ∧
    (n * p % 100 ≠ 0 → eqlen n p = n * p / 100) := by
  subst hlw hn
  have hW : W < GUINT_MOD := by simp only [GUINT_MOD]; omega
  have hn : W - min (input_textlen text) (W - 10) - 7 < 2 ^ 32 := by omega
  obtain ⟨c1, c2, c3⟩ := eqlen_near hn hp
  refine ⟨progress_line htty hp hmemo hcol h10 hW, fun h => ?_, c1, c2, c3⟩
  rw [input_textlen_of_lt (by simpa [GUINT_MOD] using h)]

/-- C2 amended, at a concrete input: no label, 58 percent, 57 columns, where the
interior is 50 columns wide. -/
theorem fill_count_near_floor_witness :
    (stdout_is_tty tty57.isatty locked57).1 = true ∧
    (columns tty57.winsize locked57).1 = 57 ∧
    (glnx_console_progress_text_percent tty57 none 58 locked57).out =
      [0x1B, 0x38] ++ write_label none 0
        ++ ([91] ++ List.replicate (eqlen 50 58) 61 ++ List.replicate (50 - eqlen 50 58) 32
          ++ [93] ++ fprintf_percent 58) ∧
    (((none : Option Bytes).getD []).length < 2 ^ 32 →
      0 = min ((none : Option Bytes).getD []).length (57 - 10)) ∧
    eqlen 50 58 ≤ 50 * 58 / 100 ∧
    50 * 58 / 100 ≤ eqlen 50 58 + 1 ∧
    (50 * 58 % 100 ≠ 0 → eqlen 50 58 = 50 * 58 / 100) :=
  ⟨by decide, by decide,
    fill_count_near_floor tty57 none 58 57 locked57 0 50 (by decide) (by decide) (by decide)
      (by decide) (by decide) (by decide) (by decide) (by decide)⟩

/-- C3, evaluated: on 40 columns the label `Building` at 50 percent is drawn as
restore-cursor followed by `Buildin [============             ]  50%`: the
label region is 8 columns (the last letter is dropped), the interior 25 columns
with 12 `=` and 13 blanks; the line of the claim is not what is written. -/
theorem building_line_drops_letter :
    (glnx_console_progress_text_percent tty40 (some building) 50 locked40).out =
      [0x1B, 0x38] ++ "Buildin [============             ]  50%".toList.map Char.toNat ∧
    (glnx_console_progress_text_percent tty40 (some building) 50 locked40).out ≠
      [0x1B, 0x38] ++ "Building [============            ]  50%".toList.map Char.toNat := by
  decide


/-! ## Claims about memoization -/

/-- C4, evaluated: after `glnx_console_lock` on 40 columns, the first call with
(`Building`, 50) writes 42 bytes and leaves the memoized pair at (`NULL`, 0), so
the second identical call writes the same 42 bytes again instead of nothing. -/
theorem repeated_progress_writes_again :
    (glnx_console_progress_text_percent tty40 (some building) 50 locked40).out.length = 42 ∧
    (glnx_console_progress_text_percent tty40 (some building) 50
        locked40).state.current_percent = 0 ∧
    (glnx_console_progress_text_percent tty40 (some building) 50
        locked40).state.current_text = none ∧
    (glnx_console_progress_text_percent tty40 (some building) 50
        (glnx_console_progress_text_percent tty40 (some building) 50 locked40).state).out
      = (glnx_console_progress_text_percent tty40 (some building) 50 locked40).out := by
  decide

/-- C5, evaluated: after `glnx_console_lock` on 40 columns and a call with no
label at 50 percent (which draws 42 bytes), the call with no label at 0 percent
writes nothing, because the memoized percentage is still the 0 stored by
`glnx_console_lock`. -/
theorem changed_percent_not_redrawn :
    (glnx_console_progress_text_percent tty40 none 50 locked40).out.length = 42 ∧
    (glnx_console_progress_text_percent tty40 none 0
        (glnx_console_progress_text_percent tty40 none 50 locked40).state).out = [] ∧
    (glnx_console_progress_text_percent tty40 none 0
        (glnx_console_progress_text_percent tty40 none 50 locked40).state).critical = false := by
  decide

/-! ## Claims about the lock -/

/-- C6, evaluated: on a terminal, `glnx_console_lock` on a fresh handle succeeds
and `glnx_console_unlock` succeeds, but it clears only the process-wide flag:
the handle still has `locked` set, and locking the same handle again is rejected
by `g_return_if_fail` with nothing written. -/
theorem relock_same_handle_rejected :
    (glnx_console_lock tty40 Globals.initial { locked := false }).critical = false ∧
    (glnx_console_lock tty40 Globals.initial { locked := false }).state.2.locked = true ∧
    (glnx_console_unlock tty40 locked40 { locked := true }).critical = false ∧
    (glnx_console_unlock tty40 locked40 { locked := true }).out = [0x0A] ∧
    (glnx_console_unlock tty40 locked40 { locked := true }).state.1.locked = false ∧
    (glnx_console_unlock tty40 locked40 { locked := true }).state.2.locked = true ∧
    (glnx_console_lock tty40 (glnx_console_unlock tty40 locked40 { locked := true }).state.1
        (glnx_console_unlock tty40 locked40 { locked := true }).state.2).critical = true ∧
    (glnx_console_lock tty40 (glnx_console_unlock tty40 locked40 { locked := true }).state.1
        (glnx_console_unlock tty40 locked40 { locked := true }).state.2).out = [] := by
  decide

/-- C7, evaluated: from the program start on a terminal, after locking and
unlocking handle 1 the process-wide flag is clear while handle 1 is still
flagged, and after then locking handle 2 both handles are flagged. -/
theorem two_handles_flagged :
    (System.run System.initial [(tty40, .lock 1), (tty40, .unlock 1)]).globals.locked = false ∧
    ((System.run System.initial [(tty40, .lock 1), (tty40, .unlock 1)]).handles 1).locked = true ∧
    (System.run System.initial [(tty40, .lock 1), (tty40, .unlock 1), (tty40, .lock 2)]).globals.locked = true ∧
    ((System.run System.initial [(tty40, .lock 1), (tty40, .unlock 1), (tty40, .lock 2)]).handles 1).locked = true ∧
    ((System.run System.initial [(tty40, .lock 1), (tty40, .unlock 1), (tty40, .lock 2)]).handles 2).locked = true := by
  decide

/-- C8: on a terminal, `glnx_console_lock` called while the process-wide flag or
the flag of the given handle is set fails its `g_return_if_fail`, writes no
bytes, returns the handle unchanged and leaves the lock flag, the memoized
percentage and label and both geometry caches of the statics unchanged. -/
theorem lock_while_locked_rejected (env : Env) (g : Globals) (console : GLnxConsoleRef)
    (htty : (stdout_is_tty env.isatty g).1 = true)
    (hlocked : g.locked = true ∨ console.locked = true) :
    (glnx_console_lock env g console).critical = true ∧
    (glnx_console_lock env g console).out = [] ∧
    (glnx_console_lock env g console).state.2 = console ∧
    (glnx_console_lock env g console).state.1.locked = g.locked ∧
    (glnx_console_lock env g console).state.1.current_percent = g.current_percent ∧
    (glnx_console_lock env g console).state.1.current_text = g.current_text ∧
    (glnx_console_lock env g console).state.1.cached_columns = g.cached_columns ∧
    (glnx_console_lock env g console).state.1.cached_lines = g.cached_lines ∧
    (glnx_console_lock env g console).state.1.sigwinch_initialized = g.sigwinch_initialized := by
  rw [stdout_is_tty_fst] at htty
  unfold glnx_console_lock
  simp only [stdout_is_tty_fst, stdout_is_tty_snd, htty, Bool.not_true, Bool.false_eq_true,
    if_false]
  rcases hlocked with h | h
  · simp only [h, if_true, and_self]
  · simp only [h, if_true]
    split_ifs <;> simp

/-- C8, at a concrete input: the statics after a first lock, and a second handle. -/
theorem lock_while_locked_rejected_witness :
    (stdout_is_tty tty40.isatty locked40).1 = true ∧
    (locked40.locked = true ∨ ({ locked := false } : GLnxConsoleRef).locked = true) ∧
    (glnx_console_lock tty40 locked40 { locked := false }).critical = true ∧
    (glnx_console_lock tty40 locked40 { locked := false }).out = [] :=
  ⟨by decide, by decide,
    (lock_while_locked_rejected tty40 locked40 { locked := false } (by decide)
      (by decide)).1,
    (lock_while_locked_rejected tty40 locked40 { locked := false } (by decide)
      (by decide)).2.1⟩

/-- C9, refuted as stated: at program start on a terminal of 40 columns, with no
session locked, the call with (`Building`, 50) is not rejected and writes 42
bytes; the same holds after a lock followed by an unlock. -/
theorem progress_unlocked_not_rejected :
    ¬ ((glnx_console_progress_text_percent tty40 (some building) 50
          Globals.initial).critical = true ∧
       (glnx_console_progress_text_percent tty40 (some building) 50
          Globals.initial).out = []) ∧
    (glnx_console_progress_text_percent tty40 (some building) 50
        Globals.initial).out.length = 42 ∧
    (glnx_console_progress_text_percent tty40 (some building) 50
        (glnx_console_unlock tty40 locked40 { locked := true }).state.1).out.length = 42 := by
  decide

/-- The memo invariant of a run: whenever the process-wide flag is clear the
memoized percentage is the sentinel -1. -/
theorem lock_unlocked_memo (env : Env) (g : Globals) (console : GLnxConsoleRef)
    (h : g.locked = false → g.current_percent = -1) :
    (glnx_console_lock env g console).state.1.locked = false →
      (glnx_console_lock env g console).state.1.current_percent = -1 := by
  unfold glnx_console_lock
  simp only [stdout_is_tty_fst, stdout_is_tty_snd]
  split_ifs <;> simp_all

theorem unlock_unlocked_memo (env : Env) (g : Globals) (console : GLnxConsoleRef)
    (h : g.locked = false → g.current_percent = -1) :
    (glnx_console_unlock env g console).state.1.locked = false →
      (glnx_console_unlock env g console).state.1.current_percent = -1 := by
  unfold glnx_console_unlock
  simp only [stdout_is_tty_fst, stdout_is_tty_snd]
  split_ifs <;> simp_all

theorem call_unlocked_memo (s : System) (ec : Env × Call)
    (h : s.globals.locked = false → s.globals.current_percent = -1) :
    (System.call s ec).globals.locked = false →
      (System.call s ec).globals.current_percent = -1 := by
  obtain ⟨env, c⟩ := ec
  cases c with
  | lock i => exact lock_unlocked_memo env s.globals (s.handles i) h
  | progress text p =>
    simp only [System.call, progress_state]
    exact h
  | unlock i => exact unlock_unlocked_memo env s.globals (s.handles i) h
  | sigwinch =>
    simp only [System.call]
    split_ifs
    · exact h
    · exact h

/-- After every run from program start, a clear process-wide flag comes with
the memoized percentage -1. -/
theorem run_unlocked_memo (cs : List (Env × Call)) :
    (System.run System.initial cs).globals.locked = false →
      (System.run System.initial cs).globals.current_percent = -1 := by
  have key : ∀ (l : List (Env × Call)) (s : System),
      (s.globals.locked = false → s.globals.current_percent = -1) →
      ((System.run s l).globals.locked = false →
        (System.run s l).globals.current_percent = -1) := by
    intro l
    induction l with
    | nil => intro s hs; exact hs
    | cons ec l ih =>
      intro s hs
      exact ih (System.call s ec) (call_unlocked_memo s ec hs)
  exact key cs System.initial (fun _ => rfl)

/-- C9, amended: after any run from program start that leaves no session
locked (in particular before any `glnx_console_lock` and after a
`glnx_console_unlock`), on a terminal and for `p ≤ 100`, the call is not
rejected: it reports no contract violation, writes nothing when `columns`
returns less than 10, and otherwise writes restore-cursor followed by a line of
exactly as many bytes as `columns` returns. -/
theorem progress_unlocked_draws (cs : List (Env × Call)) (env : Env) (text : Option Bytes)
    (p : Nat)
    (htty : (stdout_is_tty env.isatty (System.run System.initial cs).globals).1 = true)
    (hunlocked : (System.run System.initial cs).globals.locked = false)
    (hp : p ≤ 100) :
    (glnx_console_progress_text_percent env text p
      (System.run System.initial cs).globals).critical = false ∧
    ((columns env.winsize (System.run System.initial cs).globals).1 < 10 →
      (glnx_console_progress_text_percent env text p
        (System.run System.initial cs).globals).out = []) ∧
    (10 ≤ (columns env.winsize (System.run System.initial cs).globals).1 →
      (glnx_console_progress_text_percent env text p
        (System.run System.initial cs).globals).out.take 2 = [0x1B, 0x38] ∧
      ((glnx_console_progress_text_percent env text p
        (System.run System.initial cs).globals).out.drop 2).length
        = (columns env.winsize (System.run System.initial cs).globals).1) := by
  have hpct := run_unlocked_memo cs hunlocked
  have hcache := run_cached_columns_le cs
  generalize (System.run System.initial cs).globals = g at *
  have hmemo : ¬ (p = toGuint g.current_percent ∧
      (if text = some [] then none else text) = g.current_text) := by
    rw [hpct]
    intro hcon
    have h1 : toGuint (-1) = 4294967295 := by decide
    rw [h1] at hcon
    omega
  refine ⟨?_, fun hnarrow => ?_, fun h10 => ?_⟩
  · unfold glnx_console_progress_text_percent
    simp only [hp, not_true_eq_false, if_false]
    split_ifs <;> rfl
  · rw [stdout_is_tty_fst] at htty
    unfold glnx_console_progress_text_percent
    simp only [stdout_is_tty_fst, stdout_is_tty_snd, columns_snd, htty, Bool.not_true,
      Bool.false_eq_true, if_false, hp, not_true_eq_false, hnarrow, if_true]
    split_ifs <;> rfl
  · have h256 := (columns_fst_bounds env.winsize g hcache).2
    have hW : (columns env.winsize g).1 < GUINT_MOD := by simp only [GUINT_MOD]; omega
    have hout := progress_line htty hp hmemo rfl h10 hW
    have hlab : (write_label text (min (input_textlen text)
        ((columns env.winsize g).1 - 10))).length
        = min (input_textlen text) ((columns env.winsize g).1 - 10) :=
      write_label_length (Nat.min_le_left _ _)
    have hle : min (input_textlen text) ((columns env.winsize g).1 - 10)
        ≤ (columns env.winsize g).1 - 10 := Nat.min_le_right _ _
    have he : eqlen ((columns env.winsize g).1
          - min (input_textlen text) ((columns env.winsize g).1 - 10) - 7) p
        ≤ (columns env.winsize g).1
          - min (input_textlen text) ((columns env.winsize g).1 - 10) - 7 :=
      eqlen_le (by omega) hp
    have h5 := fprintf_percent_length hp
    rw [hout]
    generalize min (input_textlen text) ((columns env.winsize g).1 - 10) = tl at *
    generalize (columns env.winsize g).1 = W at *
    constructor
    · rfl
    · simp only [List.append_assoc, List.cons_append, List.nil_append, List.drop_succ_cons,
        List.drop_zero, List.length_append, List.length_cons, List.length_replicate,
        List.length_nil, hlab, h5]
      omega

/-- C9 amended, at a concrete input: after a lock and an unlock on 40 columns,
the call with no label at 0 percent. -/
theorem progress_unlocked_draws_witness :
    (stdout_is_tty tty40.isatty
      (System.run System.initial [(tty40, .lock 1), (tty40, .unlock 1)]).globals).1 = true ∧
    (System.run System.initial [(tty40, .lock 1), (tty40, .unlock 1)]).globals.locked = false ∧
    0 ≤ 100 ∧
    10 ≤ (columns tty40.winsize
      (System.run System.initial [(tty40, .lock 1), (tty40, .unlock 1)]).globals).1 ∧
    (glnx_console_progress_text_percent tty40 none 0
      (System.run System.initial [(tty40, .lock 1), (tty40, .unlock 1)]).globals).critical
        = false ∧
    (glnx_console_progress_text_percent tty40 none 0
      (System.run System.initial [(tty40, .lock 1), (tty40, .unlock 1)]).globals).out.take 2
        = [0x1B, 0x38] ∧
    ((glnx_console_progress_text_percent tty40 none 0
      (System.run System.initial [(tty40, .lock 1), (tty40, .unlock 1)]).globals).out.drop
        2).length
      = (columns tty40.winsize
          (System.run System.initial [(tty40, .lock 1), (tty40, .unlock 1)]).globals).1 :=
  ⟨by decide, by decide, by decide, by decide,
    (progress_unlocked_draws [(tty40, .lock 1), (tty40, .unlock 1)] tty40 none 0
      (by decide) (by decide) (by decide)).1,
    ((progress_unlocked_draws [(tty40, .lock 1), (tty40, .unlock 1)] tty40 none 0
      (by decide) (by decide) (by decide)).2.2 (by decide)).1,
    ((progress_unlocked_draws [(tty40, .lock 1), (tty40, .unlock 1)] tty40 none 0
      (by decide) (by decide) (by decide)).2.2 (by decide)).2⟩

/-! ## Claims about the geometry cache -/

/-- C10, refuted as stated: with the cache invalid and a terminal reporting 5
columns, `columns` returns 5, which is below 10. -/
theorem columns_below_bar_min :
    (columns (.ok 5) Globals.initial).1 = 5 ∧
    ¬ (10 ≤ (columns (.ok 5) Globals.initial).1 ∧ (columns (.ok 5) Globals.initial).1 ≤ 256) := by
  decide

/-- C10, amended: for every result of the window-size query and every cache
state whose cached width is at most 256 (zero, or a value `columns` stored
earlier, which is all a run from program start produces), the value `columns`
returns lies in `[1, 256]`, and it is the value left in the cache. -/
theorem columns_range (w : Winsize) (g : Globals) (hc : g.cached_columns ≤ 256) :
    1 ≤ (columns w g).1 ∧ (columns w g).1 ≤ 256 ∧
    (columns w g).2.cached_columns = (columns w g).1 := by
  have h := columns_fst_bounds w g hc
  rw [columns_snd]
  exact ⟨h.1, h.2, rfl⟩

/-- C10 amended, at a concrete input: a terminal reporting 1000 columns. -/
theorem columns_range_witness :
    Globals.initial.cached_columns ≤ 256 ∧
    1 ≤ (columns (.ok 1000) Globals.initial).1 ∧
    (columns (.ok 1000) Globals.initial).1 ≤ 256 ∧
    (columns (.ok 1000) Globals.initial).2.cached_columns
      = (columns (.ok 1000) Globals.initial).1 :=
  ⟨by decide, columns_range (.ok 1000) Globals.initial (by decide)⟩

/-! ## Further lemmas: monotone fill, cache refill, control bytes -/

theorem eqlen_mono {n p q : Nat} (hn : n < 2 ^ 32) (hpq : p ≤ q) (hq : q ≤ 100) :
    eqlen n p ≤ eqlen n q := by
  rcases Nat.eq_or_lt_of_le hpq with rfl | hlt
  · exact Nat.le_refl _
  obtain ⟨hp1, -, -⟩ := eqlen_near hn (Nat.le_trans hpq hq)
  obtain ⟨-, hq2, hq3⟩ := eqlen_near hn hq
  have hmul : n * p ≤ n * q := Nat.mul_le_mul_left _ hpq
  have hdiv : n * p / 100 ≤ n * q / 100 := Nat.div_le_div_right hmul
  by_cases hr : n * q % 100 = 0
  · rcases Nat.eq_zero_or_pos n with rfl | hn0
    · simp [eqlen_len_zero]
    have hstrict : n * p < n * q := Nat.mul_lt_mul_of_pos_left hlt hn0
    have h1 := Nat.div_add_mod (n * q) 100
    have h2 := Nat.div_add_mod (n * p) 100
    have h3 := Nat.mod_lt (n * p) (by norm_num : 0 < 100)
    omega
  · have := hq3 hr
    omega

theorem columns_of_invalid (w : Winsize) (g : Globals) (h : g.cached_columns = 0) :
    (columns w g).1 =
      match w with
      | .fail _ => 80
      | .ok c => if c = 0 then 80 else if 256 < c then 256 else c := by
  unfold columns
  rw [if_pos h]
  cases w with
  | fail errno =>
    simp only [fd_columns, toGuint]
    split_ifs <;> omega
  | ok ws_col =>
    simp only [fd_columns, toGuint, EIO]
    split_ifs <;> omega

theorem columns_of_valid (w : Winsize) (g : Globals) (h : g.cached_columns ≠ 0) :
    columns w g = (g.cached_columns, g) := by
  unfold columns
  rw [if_neg h]

theorem fprintf_percent_plain {p : Nat} (hp : p ≤ 100) :
    27 ∉ fprintf_percent p ∧ 10 ∉ fprintf_percent p := by
  interval_cases p <;> decide

theorem write_bar_plain (barlen : Nat) {p : Nat} (hp : p ≤ 100) :
    27 ∉ write_bar barlen p ∧ 10 ∉ write_bar barlen p := by
  obtain ⟨h1, h2⟩ := fprintf_percent_plain hp
  simp only [write_bar, printpad_equals, printpad_spaces, List.mem_append, List.mem_replicate,
    List.mem_singleton, not_or]
  refine ⟨⟨⟨⟨⟨?_, ?_⟩, ?_⟩, ?_⟩, h1⟩, ⟨⟨⟨⟨?_, ?_⟩, ?_⟩, ?_⟩, h2⟩⟩ <;> simp

theorem write_label_plain {text : Option Bytes} (textlen : Nat) {b : Nat} (hb : b ≠ 32)
    (h : ∀ t, text = some t → b ∉ t) : b ∉ write_label text textlen := by
  unfold write_label
  split_ifs
  · simp only [List.mem_append, List.mem_singleton, not_or]
    refine ⟨fun hmem => ?_, hb⟩
    cases text with
    | none => simp at hmem
    | some t => exact h t rfl (List.mem_of_mem_take hmem)
  · simp

/-- Every call of `glnx_console_progress_text_percent` either writes nothing or
writes restore-cursor, a label block, a bar block and a pad of blanks, the
latter only for a percentage of at most 100. -/
theorem progress_out_cases (env : Env) (text : Option Bytes) (p : Nat) (g : Globals) :
    (glnx_console_progress_text_percent env text p g).out = [] ∨
    (p ≤ 100 ∧ ∃ textlen barlen spacelen : Nat,
      (glnx_console_progress_text_percent env text p g).out =
        [0x1B, 0x38] ++ write_label text textlen ++ write_bar barlen p
          ++ printpad spaces 20 spacelen) := by
  unfold glnx_console_progress_text_percent
  simp only [stdout_is_tty_fst, stdout_is_tty_snd, columns_snd]
  split_ifs with h1 h2 h3 h4 h5 h6 h7
  all_goals first
    | exact Or.inl rfl
    | exact Or.inr ⟨h2, _, _, _, rfl⟩
    | (subst h3; exact Or.inr ⟨h2, _, _, _, rfl⟩)


/-! ## Claims about the geometry cache, continued -/

/-- C11: with the geometry cache invalid, `columns` returns 80 when the
window-size query fails or reports a column count of zero, 256 when it reports
more than 256, and the reported count otherwise, and stores the value it
returns in the cache. -/
theorem columns_clamp (w : Winsize) (g : Globals) (hinv : g.cached_columns = 0) :
    (columns w g).2 = { g with cached_columns := (columns w g).1 } ∧
    (∀ errno, w = .fail errno → (columns w g).1 = 80) ∧
    (∀ c, w = .ok c → c ≤ 0 → (columns w g).1 = 80) ∧
    (∀ c, w = .ok c → 256 < c → (columns w g).1 = 256) ∧
    (∀ c, w = .ok c → 0 < c → c ≤ 256 → (columns w g).1 = c) := by
  have h := columns_of_invalid w g hinv
  refine ⟨columns_snd w g, ?_, ?_, ?_, ?_⟩
  · rintro errno rfl
    exact h
  · rintro c rfl hc
    rw [h]
    simp only
    rw [if_pos (by omega)]
  · rintro c rfl hc
    rw [h]
    simp only
    rw [if_neg (by omega), if_pos hc]
  · rintro c rfl hc0 hc
    rw [h]
    simp only
    rw [if_neg (by omega), if_neg (by omega)]

/-- C11, at a concrete input: a terminal reporting 1000 columns yields 256. -/
theorem columns_clamp_witness :
    Globals.initial.cached_columns = 0 ∧
    (columns (.ok 1000) Globals.initial).1 = 256 ∧
    (columns (.ok 1000) Globals.initial).2.cached_columns = 256 ∧
    (columns (.ok 0) Globals.initial).1 = 80 ∧
    (columns (.fail 25) Globals.initial).1 = 80 :=
  ⟨by decide,
    (columns_clamp (.ok 1000) Globals.initial (by decide)).2.2.2.1 1000 rfl (by decide),
    by decide,
    (columns_clamp (.ok 0) Globals.initial (by decide)).2.2.1 0 rfl (by decide),
    (columns_clamp (.fail 25) Globals.initial (by decide)).2.1 25 rfl⟩

/-- C12: `on_sigwinch` takes no query result and only stores zero to
`cached_columns` and `cached_lines`; whatever width was cached before it runs,
the next `columns` call returns the clamped result of the query made then; and
a `columns` call with a valid cache returns the cached value and leaves the
statics alone, whatever the terminal would report. -/
theorem sigwinch_forces_requery (g : Globals) :
    on_sigwinch g = { g with cached_columns := 0, cached_lines := 0 } ∧
    (∀ errno, (columns (.fail errno) (on_sigwinch g)).1 = 80) ∧
    (∀ c, (columns (.ok c) (on_sigwinch g)).1
      = if c = 0 then 80 else if 256 < c then 256 else c) ∧
    (∀ w, (columns w (on_sigwinch g)).2.cached_columns = (columns w (on_sigwinch g)).1) ∧
    (g.cached_columns ≠ 0 → ∀ w, columns w g = (g.cached_columns, g)) := by
  refine ⟨rfl, fun errno => ?_, fun c => ?_, fun w => ?_, fun h w => columns_of_valid w g h⟩
  · exact columns_of_invalid (.fail errno) (on_sigwinch g) rfl
  · exact columns_of_invalid (.ok c) (on_sigwinch g) rfl
  · rw [columns_snd]

/-- C12, at a concrete input: 40 columns cached, then a resize to 120. -/
theorem sigwinch_forces_requery_witness :
    (glnx_console_progress_text_percent tty40 none 50 locked40).state.cached_columns ≠ 0 ∧
    (columns (.ok 120) (on_sigwinch
        (glnx_console_progress_text_percent tty40 none 50 locked40).state)).1
      = (if 120 = 0 then 80 else if 256 < 120 then 256 else 120) ∧
    columns (.ok 120) (glnx_console_progress_text_percent tty40 none 50 locked40).state
      = ((glnx_console_progress_text_percent tty40 none 50 locked40).state.cached_columns,
         (glnx_console_progress_text_percent tty40 none 50 locked40).state) :=
  ⟨by decide,
    (sigwinch_forces_requery
      (glnx_console_progress_text_percent tty40 none 50 locked40).state).2.2.1 120,
    (sigwinch_forces_requery
      (glnx_console_progress_text_percent tty40 none 50 locked40).state).2.2.2.2
        (by decide) (.ok 120)⟩

/-! ## Claims about the label and the fill, continued -/

/-- C13, refuted as stated: on 10 columns the label `Building` gets a region of
`min (8, 0) = 0` columns; the code writes no label byte and no blank, and the
line is `[=  ]  50%`, which does not start with a blank followed by `[`. -/
theorem no_label_region_at_bar_min :
    (glnx_console_progress_text_percent tty10 (some building) 50 locked10).out =
      [0x1B, 0x38] ++ "[=  ]  50%".toList.map Char.toNat ∧
    ¬ (((glnx_console_progress_text_percent tty10 (some building) 50 locked10).out.drop 2).take
        (min building.length (10 - 10) - 1 + 2)
      = building.take (min building.length (10 - 10) - 1) ++ [32] ++ [91]) := by
  decide

/-- C13, amended: for a non-empty label `L` shorter than `2 ^ 32` bytes and `W`
in `[11, 256]`, the drawn line starts with a label region of exactly
`m = min (len L) (W - 10)` columns, the first `m - 1` bytes of `L` followed by
one blank, immediately followed by `[`; on exactly 10 columns the region is
empty and the line starts with `[`. -/
theorem label_region (env : Env) (L : Bytes) (p W m : Nat) (g : Globals)
    (htty : (stdout_is_tty env.isatty g).1 = true)
    (hcol : (columns env.winsize g).1 = W) (h10 : 10 ≤ W) (h256 : W ≤ 256) (hp : p ≤ 100)
    (hmemo : ¬ (p = toGuint g.current_percent ∧
      (if some L = some [] then none else some L) = g.current_text))
    (hne : L ≠ []) (hlen : L.length < 2 ^ 32) (hm : m = min L.length (W - 10)) :
    (11 ≤ W → ∃ rest : Bytes,
      (glnx_console_progress_text_percent env (some L) p g).out =
        [0x1B, 0x38] ++ (L.take (m - 1) ++ [32]) ++ [91] ++ rest ∧
      (L.take (m - 1) ++ [32]).length = m) ∧
    (W = 10 → ∃ rest : Bytes,
      (glnx_console_progress_text_percent env (some L) p g).out =
        [0x1B, 0x38] ++ [91] ++ rest) := by
  have hW : W < GUINT_MOD := by simp only [GUINT_MOD]; omega
  have hout := progress_line htty hp hmemo hcol h10 hW
  have hin : input_textlen (some L) = L.length :=
    @input_textlen_of_lt (some L) (by simpa [GUINT_MOD] using hlen)
  have hpos : 0 < L.length := List.length_pos.mpr hne
  rw [hin, ← hm] at hout
  constructor
  · intro h11
    have hm0 : 0 < m := by omega
    refine ⟨(List.replicate (eqlen (W - m - 7) p) 61
      ++ List.replicate (W - m - 7 - eqlen (W - m - 7) p) 32 ++ [93] ++ fprintf_percent p), ?_, ?_⟩
    · rw [hout]
      simp only [write_label, hm0, if_true, Option.getD_some, List.append_assoc, gt_iff_lt]
    · simp only [List.length_append, List.length_take, List.length_singleton]
      omega
  · intro hW10
    have hm0 : m = 0 := by omega
    clear hm
    subst hm0
    refine ⟨(List.replicate (eqlen (W - 0 - 7) p) 61
      ++ List.replicate (W - 0 - 7 - eqlen (W - 0 - 7) p) 32 ++ [93] ++ fprintf_percent p), ?_⟩
    rw [hout]
    simp only [write_label, gt_iff_lt, Nat.lt_irrefl, if_false, List.append_nil,
      List.append_assoc]

/-- C13 amended, at a concrete input: the label `Building` on 40 columns. -/
theorem label_region_witness :
    (stdout_is_tty tty40.isatty locked40).1 = true ∧
    (columns tty40.winsize locked40).1 = 40 ∧
    building ≠ [] ∧ building.length < 2 ^ 32 ∧ 8 = min building.length (40 - 10) ∧
    ((11 ≤ 40 → ∃ rest : Bytes,
      (glnx_console_progress_text_percent tty40 (some building) 50 locked40).out =
        [0x1B, 0x38] ++ (building.take (8 - 1) ++ [32]) ++ [91] ++ rest ∧
      (building.take (8 - 1) ++ [32]).length = 8) ∧
    (40 = 10 → ∃ rest : Bytes,
      (glnx_console_progress_text_percent tty40 (some building) 50 locked40).out =
        [0x1B, 0x38] ++ [91] ++ rest)) :=
  ⟨by decide, by decide, by decide, by decide, by decide,
    label_region tty40 building 50 40 8 locked40 (by decide) (by decide) (by decide)
      (by decide) (by decide) (by decide) (by decide) (by decide) (by decide)⟩

/-- C14, evaluated: after a successful `glnx_console_lock` on a terminal of 40
columns the memoized percentage is 0, inside `[0, 100]`, and the first call with
no label at 0 percent writes nothing, while the same call made before any lock
(memoized percentage -1) draws the 42-byte bar. -/
theorem lock_sets_percent_zero :
    (glnx_console_lock tty40 Globals.initial { locked := false }).critical = false ∧
    (glnx_console_lock tty40 Globals.initial { locked := false }).state.1.current_percent = 0 ∧
    (glnx_console_progress_text_percent tty40 none 0 locked40).out = [] ∧
    (glnx_console_progress_text_percent tty40 (some []) 0 locked40).out = [] ∧
    (glnx_console_progress_text_percent tty40 none 0 Globals.initial).out.length = 42 := by
  decide


/-! ## Claims about the guards of the entry points -/

/-- C15: when `stdout_is_tty` answers false, each of `glnx_console_lock`,
`glnx_console_progress_text_percent` (any label, any percentage, also above
100) and `glnx_console_unlock` writes no bytes, fails no `g_return_if_fail`,
returns the handle as it was and leaves the process-wide `locked` flag and the
memoized label and percentage unchanged. -/
theorem not_tty_noop (env : Env) (g : Globals) (console : GLnxConsoleRef)
    (text : Option Bytes) (p : Nat)
    (hnotty : (stdout_is_tty env.isatty g).1 = false) :
    ((glnx_console_lock env g console).out = [] ∧
      (glnx_console_lock env g console).critical = false ∧
      (glnx_console_lock env g console).state.2 = console ∧
      (glnx_console_lock env g console).state.1.locked = g.locked ∧
      (glnx_console_lock env g console).state.1.current_text = g.current_text ∧
      (glnx_console_lock env g console).state.1.current_percent = g.current_percent) ∧
    ((glnx_console_progress_text_percent env text p g).out = [] ∧
      (glnx_console_progress_text_percent env text p g).critical = false ∧
      (glnx_console_progress_text_percent env text p g).state.locked = g.locked ∧
      (glnx_console_progress_text_percent env text p g).state.current_text = g.current_text ∧
      (glnx_console_progress_text_percent env text p g).state.current_percent
        = g.current_percent) ∧
    ((glnx_console_unlock env g console).out = [] ∧
      (glnx_console_unlock env g console).critical = false ∧
      (glnx_console_unlock env g console).state.2 = console ∧
      (glnx_console_unlock env g console).state.1.locked = g.locked ∧
      (glnx_console_unlock env g console).state.1.current_text = g.current_text ∧
      (glnx_console_unlock env g console).state.1.current_percent = g.current_percent) := by
  rw [stdout_is_tty_fst] at hnotty
  refine ⟨?_, ?_, ?_⟩
  · unfold glnx_console_lock
    simp only [stdout_is_tty_fst, stdout_is_tty_snd, hnotty, Bool.not_false, if_true, and_self]
  · rw [progress_state]
    unfold glnx_console_progress_text_percent
    simp only [stdout_is_tty_fst, stdout_is_tty_snd, columns_snd, hnotty, Bool.not_false,
      if_true, and_self]
  · unfold glnx_console_unlock
    simp only [stdout_is_tty_fst, stdout_is_tty_snd, hnotty, Bool.not_false, if_true, and_self]

/-- C15, at a concrete input: a pipe, a locked-looking handle and 250 percent. -/
theorem not_tty_noop_witness :
    (stdout_is_tty notty.isatty Globals.initial).1 = false ∧
    (glnx_console_lock notty Globals.initial { locked := true }).out = [] ∧
    (glnx_console_lock notty Globals.initial { locked := true }).critical = false ∧
    (glnx_console_progress_text_percent notty (some building) 250 Globals.initial).out = [] ∧
    (glnx_console_progress_text_percent notty (some building) 250
      Globals.initial).critical = false ∧
    (glnx_console_unlock notty Globals.initial { locked := true }).out = [] ∧
    (glnx_console_unlock notty Globals.initial { locked := true }).critical = false :=
  ⟨by decide,
    (not_tty_noop notty Globals.initial { locked := true } (some building) 250
      (by decide)).1.1,
    (not_tty_noop notty Globals.initial { locked := true } (some building) 250
      (by decide)).1.2.1,
    (not_tty_noop notty Globals.initial { locked := true } (some building) 250
      (by decide)).2.1.1,
    (not_tty_noop notty Globals.initial { locked := true } (some building) 250
      (by decide)).2.1.2.1,
    (not_tty_noop notty Globals.initial { locked := true } (some building) 250
      (by decide)).2.2.1,
    (not_tty_noop notty Globals.initial { locked := true } (some building) 250
      (by decide)).2.2.2.1⟩

/-- C16: on a terminal, `glnx_console_progress_text_percent` with a percentage
above 100 fails its `g_return_if_fail`, writes no bytes and leaves the memoized
label and percentage and the process-wide `locked` flag unchanged. -/
theorem percent_above_hundred_rejected (env : Env) (text : Option Bytes) (p : Nat)
    (g : Globals) (htty : (stdout_is_tty env.isatty g).1 = true) (hp : 100 < p) :
    (glnx_console_progress_text_percent env text p g).critical = true ∧
    (glnx_console_progress_text_percent env text p g).out = [] ∧
    (glnx_console_progress_text_percent env text p g).state.current_text = g.current_text ∧
    (glnx_console_progress_text_percent env text p g).state.current_percent
      = g.current_percent ∧
    (glnx_console_progress_text_percent env text p g).state.locked = g.locked := by
  rw [stdout_is_tty_fst] at htty
  rw [progress_state]
  unfold glnx_console_progress_text_percent
  simp only [stdout_is_tty_fst, stdout_is_tty_snd, columns_snd, htty, Bool.not_true,
    Bool.false_eq_true, if_false, Nat.not_le.mpr hp, not_false_eq_true, if_true, and_self]

/-- C16, at a concrete input: 101 percent after a lock on 40 columns. -/
theorem percent_above_hundred_rejected_witness :
    (stdout_is_tty tty40.isatty locked40).1 = true ∧ 100 < 101 ∧
    (glnx_console_progress_text_percent tty40 (some building) 101 locked40).critical = true ∧
    (glnx_console_progress_text_percent tty40 (some building) 101 locked40).out = [] ∧
    (glnx_console_progress_text_percent tty40 (some building) 101
      locked40).state.current_text = locked40.current_text ∧
    (glnx_console_progress_text_percent tty40 (some building) 101
      locked40).state.current_percent = locked40.current_percent ∧
    (glnx_console_progress_text_percent tty40 (some building) 101 locked40).state.locked
      = locked40.locked :=
  ⟨by decide, by decide,
    percent_above_hundred_rejected tty40 (some building) 101 locked40 (by decide) (by decide)⟩

/-- C17: on a terminal, a `glnx_console_lock` that passes its checks writes
exactly `0x0A 0x1B 0x37`; a `glnx_console_unlock` that passes its checks writes
exactly `0x0A`; and every `glnx_console_progress_text_percent` call that writes
anything starts with exactly `0x1B 0x38` and, when the label holds no ESC and
no newline byte, writes no further ESC and no newline. -/
theorem control_bytes (env : Env) (g : Globals) (console : GLnxConsoleRef)
    (text : Option Bytes) (p : Nat) :
    ((stdout_is_tty env.isatty g).1 = true → g.locked = false → console.locked = false →
      (glnx_console_lock env g console).critical = false ∧
      (glnx_console_lock env g console).out = [0x0A, 0x1B, 0x37]) ∧
    ((stdout_is_tty env.isatty g).1 = true → g.locked = true → console.locked = true →
      (glnx_console_unlock env g console).critical = false ∧
      (glnx_console_unlock env g console).out = [0x0A]) ∧
    ((glnx_console_progress_text_percent env text p g).out ≠ [] →
      (glnx_console_progress_text_percent env text p g).out.take 2 = [0x1B, 0x38] ∧
      ((∀ t, text = some t → 0x1B ∉ t ∧ 0x0A ∉ t) →
        0x1B ∉ (glnx_console_progress_text_percent env text p g).out.drop 2 ∧
        0x0A ∉ (glnx_console_progress_text_percent env text p g).out.drop 2)) := by
  refine ⟨fun htty hg hc => ?_, fun htty hg hc => ?_, fun hne => ?_⟩
  · rw [stdout_is_tty_fst] at htty
    unfold glnx_console_lock
    simp [stdout_is_tty_fst, stdout_is_tty_snd, htty, hg, hc]
  · rw [stdout_is_tty_fst] at htty
    unfold glnx_console_unlock
    simp [stdout_is_tty_fst, stdout_is_tty_snd, htty, hg, hc]
  · rcases progress_out_cases env text p g with h | ⟨hp, tl, bl, sl, h⟩
    · exact absurd h hne
    · rw [h]
      refine ⟨rfl, fun hplain => ?_⟩
      obtain ⟨hb1, hb2⟩ := write_bar_plain bl hp
      have hl1 : 0x1B ∉ write_label text tl :=
        write_label_plain tl (by decide) (fun t ht => (hplain t ht).1)
      have hl2 : 0x0A ∉ write_label text tl :=
        write_label_plain tl (by decide) (fun t ht => (hplain t ht).2)
      simp only [List.append_assoc, List.cons_append, List.nil_append, List.drop_succ_cons,
        List.drop_zero, List.mem_append, printpad_spaces, List.mem_replicate, not_or]
      exact ⟨⟨hl1, hb1, by simp⟩, ⟨hl2, hb2, by simp⟩⟩

/-- C17, at a concrete input: lock, draw `Building` at 50 percent, unlock, on
40 columns. -/
theorem control_bytes_witness :
    (stdout_is_tty tty40.isatty Globals.initial).1 = true ∧
    (glnx_console_lock tty40 Globals.initial { locked := false }).out = [0x0A, 0x1B, 0x37] ∧
    (stdout_is_tty tty40.isatty locked40).1 = true ∧
    (glnx_console_unlock tty40 locked40 { locked := true }).out = [0x0A] ∧
    (glnx_console_progress_text_percent tty40 (some building) 50 locked40).out ≠ [] ∧
    (glnx_console_progress_text_percent tty40 (some building) 50 locked40).out.take 2
      = [0x1B, 0x38] ∧
    0x1B ∉ (glnx_console_progress_text_percent tty40 (some building) 50 locked40).out.drop 2 ∧
    0x0A ∉ (glnx_console_progress_text_percent tty40 (some building) 50 locked40).out.drop 2 :=
  ⟨by decide,
    ((control_bytes tty40 Globals.initial { locked := false } none 0).1
      (by decide) (by decide) (by decide)).2,
    by decide,
    ((control_bytes tty40 locked40 { locked := true } none 0).2.1
      (by decide) (by decide) (by decide)).2,
    by decide,
    ((control_bytes tty40 locked40 { locked := true } (some building) 50).2.2 (by decide)).1,
    (((control_bytes tty40 locked40 { locked := true } (some building) 50).2.2 (by decide)).2
      (by decide)).1,
    (((control_bytes tty40 locked40 { locked := true } (some building) 50).2.2 (by decide)).2
      (by decide)).2⟩

/-- C18: on a terminal, with `p ≤ 100`, when `columns` returns less than 10 the
call writes no bytes at all, fails no check and leaves the memoized label and
percentage unchanged. -/
theorem narrow_terminal_noop (env : Env) (text : Option Bytes) (p : Nat) (g : Globals)
    (htty : (stdout_is_tty env.isatty g).1 = true) (hp : p ≤ 100)
    (hnarrow : (columns env.winsize g).1 < 10) :
    (glnx_console_progress_text_percent env text p g).out = [] ∧
    (glnx_console_progress_text_percent env text p g).critical = false ∧
    (glnx_console_progress_text_percent env text p g).state.current_text = g.current_text ∧
    (glnx_console_progress_text_percent env text p g).state.current_percent
      = g.current_percent := by
  rw [stdout_is_tty_fst] at htty
  rw [progress_state]
  unfold glnx_console_progress_text_percent
  simp only [stdout_is_tty_fst, stdout_is_tty_snd, columns_snd, htty, Bool.not_true,
    Bool.false_eq_true, if_false, hp, not_true_eq_false, hnarrow, if_true, and_true]
  split_ifs <;> exact ⟨rfl, rfl⟩

/-- C18, at a concrete input: a terminal of 5 columns. -/
theorem narrow_terminal_noop_witness :
    (stdout_is_tty tty5.isatty locked5).1 = true ∧ 50 ≤ 100 ∧
    (columns tty5.winsize locked5).1 < 10 ∧
    (glnx_console_progress_text_percent tty5 (some building) 50 locked5).out = [] ∧
    (glnx_console_progress_text_percent tty5 (some building) 50 locked5).critical = false ∧
    (glnx_console_progress_text_percent tty5 (some building) 50 locked5).state.current_text
      = locked5.current_text ∧
    (glnx_console_progress_text_percent tty5 (some building) 50 locked5).state.current_percent
      = locked5.current_percent :=
  ⟨by decide, by decide, by decide,
    narrow_terminal_noop tty5 (some building) 50 locked5 (by decide) (by decide) (by decide)⟩


/-! ## Claims about the layout arithmetic -/

theorem fprintf_percent_no_equals {p : Nat} (hp : p ≤ 100) :
    (fprintf_percent p).count 61 = 0 := by
  interval_cases p <;> decide

/-- The number of `=` characters in the bar block is `eqlen` of the interior
width. -/
theorem write_bar_count {W tl p : Nat} (h10 : 10 ≤ W) (hW : W < GUINT_MOD)
    (htl : tl ≤ W - 10) (hp : p ≤ 100) :
    (write_bar (gsub W tl) p).count 61 = eqlen (W - tl - 7) p := by
  rw [write_bar_eq h10 hW htl hp]
  simp only [List.count_append, List.count_replicate_self, fprintf_percent_no_equals hp]
  simp [List.count_replicate]

/-- C19: for `10 ≤ W` (a `guint`) and `p ≤ 100`, when the call reaches the
drawing code it writes restore-cursor, the label block for `textlen`, the bar
block for `barlen` and a pad, and none of the unsigned subtractions wraps:
`textlen ≤ W - 10`, `barlen = W - textlen ≥ 10`,
`bar_internal_len = barlen - 7 ≥ 3`, `eqlen ≤ bar_internal_len`, and the final
pad width `W - textlen - barlen` is 0. -/
theorem layout_no_wrap (env : Env) (text : Option Bytes) (p W : Nat) (g : Globals)
    (textlen barlen bar_internal_len : Nat)
    (htty : (stdout_is_tty env.isatty g).1 = true)
    (hcol : (columns env.winsize g).1 = W) (h10 : 10 ≤ W) (hW : W < GUINT_MOD)
    (hp : p ≤ 100)
    (hmemo : ¬ (p = toGuint g.current_percent ∧
      (if text = some [] then none else text) = g.current_text))
    (htl : textlen = min (input_textlen text) (gsub W 10))
    (hbl : barlen = gsub W textlen)
    (hbil : bar_internal_len = gsub (gsub barlen 2) 5) :
    (glnx_console_progress_text_percent env text p g).out =
      [0x1B, 0x38] ++ write_label text textlen ++ write_bar barlen p
        ++ printpad spaces 20 (gsub (gsub W textlen) barlen) ∧
    gsub W 10 = W - 10 ∧ textlen ≤ W - 10 ∧
    barlen = W - textlen ∧ 10 ≤ barlen ∧
    gsub barlen 2 = barlen - 2 ∧ bar_internal_len = barlen - 7 ∧ 3 ≤ bar_internal_len ∧
    eqlen bar_internal_len p ≤ bar_internal_len ∧
    gsub bar_internal_len (eqlen bar_internal_len p)
      = bar_internal_len - eqlen bar_internal_len p ∧
    gsub W textlen = W - textlen ∧
    gsub (gsub W textlen) barlen = 0 := by
  have hout := progress_out htty hp hmemo (by rw [hcol]; exact h10)
  rw [hcol, write_label_norm, ← htl, ← hbl] at hout
  have e0 : gsub W 10 = W - 10 := gsub_of_le h10 hW
  have h1 : textlen ≤ W - 10 := by rw [htl, e0]; exact Nat.min_le_right _ _
  have e1 : gsub W textlen = W - textlen := gsub_of_le (by omega) hW
  have e2 : barlen = W - textlen := by rw [hbl, e1]
  have hM : W < 4294967296 := by simpa only [GUINT_MOD] using hW
  have e3 : gsub barlen 2 = barlen - 2 :=
    gsub_of_le (by omega) (by simp only [GUINT_MOD]; omega)
  have e4 : bar_internal_len = barlen - 7 := by
    rw [hbil, e3, gsub_of_le (by omega) (by simp only [GUINT_MOD]; omega)]
    omega
  have h5 : eqlen bar_internal_len p ≤ bar_internal_len := eqlen_le (by omega) hp
  have e6 : gsub bar_internal_len (eqlen bar_internal_len p)
      = bar_internal_len - eqlen bar_internal_len p :=
    gsub_of_le h5 (by simp only [GUINT_MOD]; omega)
  have e7 : gsub (gsub W textlen) barlen = 0 := by
    rw [e1, e2, gsub_of_le (Nat.le_refl _) (by simp only [GUINT_MOD]; omega)]
    omega
  refine ⟨?_, e0, h1, e2, by omega, e3, e4, by omega, h5, e6, e1, e7⟩
  rw [hout, ← hbl]

/-- C19, at a concrete input: the label `Building` at 50 percent on 40 columns,
where `textlen = 8`, `barlen = 32` and `bar_internal_len = 25`. -/
theorem layout_no_wrap_witness :
    (stdout_is_tty tty40.isatty locked40).1 = true ∧
    (columns tty40.winsize locked40).1 = 40 ∧
    8 = min (input_textlen (some building)) (gsub 40 10) ∧ 32 = gsub 40 8 ∧
    25 = gsub (gsub 32 2) 5 ∧
    ((glnx_console_progress_text_percent tty40 (some building) 50 locked40).out =
      [0x1B, 0x38] ++ write_label (some building) 8 ++ write_bar 32 50
        ++ printpad spaces 20 (gsub (gsub 40 8) 32) ∧
    gsub 40 10 = 40 - 10 ∧ 8 ≤ 40 - 10 ∧
    32 = 40 - 8 ∧ 10 ≤ 32 ∧
    gsub 32 2 = 32 - 2 ∧ 25 = 32 - 7 ∧ 3 ≤ 25 ∧
    eqlen 25 50 ≤ 25 ∧
    gsub 25 (eqlen 25 50) = 25 - eqlen 25 50 ∧
    gsub 40 8 = 40 - 8 ∧
    gsub (gsub 40 8) 32 = 0) :=
  ⟨by decide, by decide, by decide, by decide, by decide,
    layout_no_wrap tty40 (some building) 50 40 locked40 8 32 25 (by decide) (by decide)
      (by decide) (by decide) (by decide) (by decide) (by decide) (by decide) (by decide)⟩

/-- The number of `=` characters after restore-cursor and the label region of a
drawn line is `eqlen` of the interior width. -/
theorem progress_fill_count {env : Env} {text : Option Bytes} {p W lw : Nat} {g : Globals}
    (htty : (stdout_is_tty env.isatty g).1 = true) (hp : p ≤ 100)
    (hmemo : ¬ (p = toGuint g.current_percent ∧
      (if text = some [] then none else text) = g.current_text))
    (hcol : (columns env.winsize g).1 = W) (h10 : 10 ≤ W) (hW : W < GUINT_MOD)
    (hlw : lw = min (input_textlen text) (W - 10)) :
    ((glnx_console_progress_text_percent env text p g).out.drop (2 + lw)).count 61
      = eqlen (W - lw - 7) p := by
  have hout := progress_line htty hp hmemo hcol h10 hW
  rw [← hlw] at hout
  have hlab : (write_label text lw).length = lw :=
    write_label_length (by rw [hlw]; exact Nat.min_le_left _ _)
  have hdrop : ∀ (l r : Bytes), l.length = lw → ([0x1B, 0x38] ++ l ++ r).drop (2 + lw) = r := by
    intro l r hl
    have : 2 + lw = ([0x1B, 0x38] ++ l).length := by simp [hl]; omega
    rw [this, List.drop_left]
  rw [hout, hdrop _ _ hlab]
  simp only [List.count_append, List.count_replicate_self, fprintf_percent_no_equals hp]
  simp [List.count_replicate]

/-- C20: on a terminal of `W ≥ 10` columns (`W` a `guint`) and for a fixed
label, with `labelWidth = min (input_textlen L) (W - 10)` and interior width
`n = W - labelWidth - 7`, every call of `glnx_console_progress_text_percent`
that draws (`p ≤ 100`, memo different) writes restore-cursor, the label region,
`[`, its fill of `=` characters, blanks up to `n`, `]` and the percent field;
the number of `=` it writes is non-decreasing in `p` over `0..100`, is 0 at
`p = 0` and is `n` at `p = 100`. -/
theorem progress_fill_monotone (env : Env) (text : Option Bytes) (g : Globals)
    (W labelWidth n : Nat)
    (htty : (stdout_is_tty env.isatty g).1 = true)
    (hcol : (columns env.winsize g).1 = W) (h10 : 10 ≤ W) (hW : W < GUINT_MOD)
    (hlw : labelWidth = min (input_textlen text) (W - 10))
    (hn : n = W - labelWidth - 7) :
    (∀ p, p ≤ 100 →
      ¬ (p = toGuint g.current_percent ∧
        (if text = some [] then none else text) = g.current_text) →
      (glnx_console_progress_text_percent env text p g).out =
        [0x1B, 0x38] ++ write_label text labelWidth
          ++ ([91] ++ List.replicate
                (((glnx_console_progress_text_percent env text p g).out.drop
                  (2 + labelWidth)).count 61) 61
            ++ List.replicate
                (n - ((glnx_console_progress_text_percent env text p g).out.drop
                  (2 + labelWidth)).count 61) 32
            ++ [93] ++ fprintf_percent p)) ∧
    (∀ p q, p ≤ q → q ≤ 100 →
      ¬ (p = toGuint g.current_percent ∧
        (if text = some [] then none else text) = g.current_text) →
      ¬ (q = toGuint g.current_percent ∧
        (if text = some [] then none else text) = g.current_text) →
      ((glnx_console_progress_text_percent env text p g).out.drop (2 + labelWidth)).count 61
        ≤ ((glnx_console_progress_text_percent env text q g).out.drop
            (2 + labelWidth)).count 61) ∧
    (¬ (0 = toGuint g.current_percent ∧
        (if text = some [] then none else text) = g.current_text) →
      ((glnx_console_progress_text_percent env text 0 g).out.drop (2 + labelWidth)).count 61
        = 0) ∧
    (¬ (100 = toGuint g.current_percent ∧
        (if text = some [] then none else text) = g.current_text) →
      ((glnx_console_progress_text_percent env text 100 g).out.drop (2 + labelWidth)).count 61
        = n) := by
  have hM : W < 4294967296 := by simpa only [GUINT_MOD] using hW
  have hn32 : n < 2 ^ 32 := by omega
  have hcount : ∀ p, p ≤ 100 →
      ¬ (p = toGuint g.current_percent ∧
        (if text = some [] then none else text) = g.current_text) →
      ((glnx_console_progress_text_percent env text p g).out.drop (2 + labelWidth)).count 61
        = eqlen n p := by
    intro p hp hmemo
    rw [progress_fill_count htty hp hmemo hcol h10 hW hlw, hn]
  refine ⟨fun p hp hmemo => ?_, fun p q hpq hq hmp hmq => ?_, fun hm => ?_, fun hm => ?_⟩
  · rw [hcount p hp hmemo, hn, hlw]
    exact progress_line htty hp hmemo hcol h10 hW
  · rw [hcount p (Nat.le_trans hpq hq) hmp, hcount q hq hmq]
    exact eqlen_mono hn32 hpq hq
  · rw [hcount 0 (by norm_num) hm, eqlen_percent_zero]
  · rw [hcount 100 (Nat.le_refl _) hm, eqlen_hundred hn32]

/-- C20, at a concrete input: the label `Building` on 40 columns after a lock,
where the label region is 8 columns and the interior 25. -/
theorem progress_fill_monotone_witness :
    (stdout_is_tty tty40.isatty locked40).1 = true ∧
    (columns tty40.winsize locked40).1 = 40 ∧
    8 = min (input_textlen (some building)) (40 - 10) ∧ 25 = 40 - 8 - 7 ∧
    ((glnx_console_progress_text_percent tty40 (some building) 29 locked40).out.drop
        (2 + 8)).count 61
      ≤ ((glnx_console_progress_text_percent tty40 (some building) 58 locked40).out.drop
        (2 + 8)).count 61 ∧
    ((glnx_console_progress_text_percent tty40 (some building) 0 locked40).out.drop
        (2 + 8)).count 61 = 0 ∧
    ((glnx_console_progress_text_percent tty40 (some building) 100 locked40).out.drop
        (2 + 8)).count 61 = 25 :=
  ⟨by decide, by decide, by decide, by decide,
    (progress_fill_monotone tty40 (some building) locked40 40 8 25 (by decide) (by decide)
      (by decide) (by decide) (by decide) (by decide)).2.1 29 58 (by decide) (by decide)
      (by decide) (by decide),
    (progress_fill_monotone tty40 (some building) locked40 40 8 25 (by decide) (by decide)
      (by decide) (by decide) (by decide) (by decide)).2.2.1 (by decide),
    (progress_fill_monotone tty40 (some building) locked40 40 8 25 (by decide) (by decide)
      (by decide) (by decide) (by decide) (by decide)).2.2.2 (by decide)⟩


end GLnx
